import Mathlib

/-!
Verification of the g-code toolpath core of `nc_view_tui`
(crates `cnc-gcode` and `cnc-geom`), shallowly embedded in Lean.

Rust `f64` values are modelled as exact real numbers; `f64::atan2` is
modelled by `Complex.arg` (same quadrant conventions and range), `sqrt`,
`sin` and `cos` by their `Real` counterparts.  All container state is
modelled by explicit functional state passing.
-/

namespace NcView

/-- Model of `cnc_geom::Vec3` with real coordinates. -/
structure Vec3 where
  x : ℝ
  y : ℝ
  z : ℝ

/-- Model of `cnc_geom::Bounds3`: running min/max with an initialized flag. -/
structure Bounds3 where
  min : Vec3
  max : Vec3
  initialized : Bool

/-- `Bounds3::new` from `geom.rs`. -/
def Bounds3.new : Bounds3 :=
  { min := ⟨0, 0, 0⟩, max := ⟨0, 0, 0⟩, initialized := false }

/-- `Bounds3::include` from `geom.rs`. -/
noncomputable def Bounds3.include (b : Bounds3) (p : Vec3) : Bounds3 :=
  if !b.initialized then
    { min := p, max := p, initialized := true }
  else
    { min := ⟨Min.min b.min.x p.x, Min.min b.min.y p.y, Min.min b.min.z p.z⟩,
      max := ⟨Max.max b.max.x p.x, Max.max b.max.y p.y, Max.max b.max.z p.z⟩,
      initialized := true }

/-- `MoveKind` from `lib.rs`. -/
inductive MoveKind where
  | Rapid
  | Feed
deriving DecidableEq, Repr

/-- `LineSegment` from `lib.rs`; the field `end` is renamed `stop`
because `end` is a Lean keyword. -/
structure LineSegment where
  start : Vec3
  stop : Vec3
  kind : MoveKind

/-- `ToolpathStats` from `lib.rs`. -/
structure ToolpathStats where
  line_count : Nat
  segment_count : Nat
  rapid_moves : Nat
  feed_moves : Nat
  arc_moves : Nat

def ToolpathStats.default : ToolpathStats := ⟨0, 0, 0, 0, 0⟩

/-- `Toolpath` from `lib.rs`. -/
structure Toolpath where
  segments : List LineSegment
  bounds : Bounds3
  stats : ToolpathStats
  line_segment_ends : List Nat

/-- `DistanceMode` from `lib.rs`. -/
inductive DistanceMode where
  | Absolute
  | Relative
deriving DecidableEq, Repr

/-- `Plane` from `lib.rs`. -/
inductive Plane where
  | XY
  | XZ
  | YZ
deriving DecidableEq, Repr

/-- `MotionMode` from `lib.rs`. -/
inductive MotionMode where
  | Rapid
  | Feed
  | ArcCW
  | ArcCCW
deriving DecidableEq, Repr

/-- `ParserState` from `lib.rs`. -/
structure ParserState where
  pos : Vec3
  units_scale : ℝ
  distance_mode : DistanceMode
  plane : Plane
  motion_mode : MotionMode

/-- `ParserState::new`. -/
def ParserState.new : ParserState :=
  { pos := ⟨0, 0, 0⟩, units_scale := 1, distance_mode := .Absolute,
    plane := .XY, motion_mode := .Rapid }

/-- `ParseOptions` from `lib.rs`; the `HashSet<char>` is modelled as a
list of characters with membership. -/
structure ParseOptions where
  ignore_missing_value : List Char
  ignore_unknown_words : Bool

/-- `ParseOptions::default`. -/
def ParseOptions.default : ParseOptions := ⟨[], false⟩

/-- `ParseOptions::with_ignore_missing`: uppercases every letter. -/
def ParseOptions.with_ignore_missing (letters : List Char) : ParseOptions :=
  ⟨letters.map Char.toUpper, false⟩

/-- `ParseOptions::with_ignore_unknown_words`. -/
def ParseOptions.with_ignore_unknown_words (o : ParseOptions) (b : Bool) : ParseOptions :=
  { o with ignore_unknown_words := b }

/-- `ParseOptions::should_ignore_missing`. -/
def ParseOptions.should_ignore_missing (o : ParseOptions) (letter : Char) : Bool :=
  o.ignore_missing_value.contains letter

/-- The error taxonomy of the core, as named by the specification.  In the
source these are `anyhow` string errors: "missing value for {letter}" and the
float-parse failure (`MalformedLine`), "arc center offsets missing (IJK or R)"
and "arc center offsets missing" (`ArcCenterMissing`), "arc radius with
coincident endpoints" (`ArcDegenerate`), "arc radius too small for chord"
(`ArcRadiusTooSmall`). -/
inductive GError where
  | malformedLine (letter : Char)
  | malformedNumber
  | arcCenterMissing
  | arcDegenerate
  | arcRadiusTooSmall
deriving DecidableEq, Repr

/-- `char::is_ascii_whitespace` from the Rust standard library. -/
def is_ascii_ws (c : Char) : Bool :=
  c = ' ' || c = '\t' || c = '\n' || c = '\x0c' || c = '\r'

/-- `str::trim` (restricted to ASCII whitespace, which is all the
development ever feeds it). -/
def trim (l : List Char) : List Char :=
  ((l.dropWhile is_ascii_ws).reverse.dropWhile is_ascii_ws).reverse

/-- `is_known_letter` from `lib.rs`. -/
def is_known_letter (letter : Char) : Bool :=
  letter = 'G' || letter = 'X' || letter = 'Y' || letter = 'Z' ||
  letter = 'I' || letter = 'J' || letter = 'K' || letter = 'R'

/-- `Word` from `lib.rs`. -/
structure Word where
  letter : Char
  value : ℝ

/-- Numeric value of a digit string, most significant first. -/
def digitsVal (l : List Char) : Nat :=
  l.foldl (fun a c => 10 * a + (c.toNat - '0'.toNat)) 0

/-- Model of `str::parse::<f64>` from the Rust standard library on finite
decimal literals (optional sign, digits with optional fraction part, optional
exponent), idealized to exact real arithmetic.  Inputs outside that grammar
(including `inf` / `nan` forms, which no claim involves) yield `none`. -/
noncomputable def parse_f64 (s : List Char) : Option ℝ :=
  let signed : ℝ × List Char :=
    match s with
    | '+' :: r => (1, r)
    | '-' :: r => (-1, r)
    | r => (1, r)
  let sign := signed.1
  let s1 := signed.2
  let intPart := s1.takeWhile Char.isDigit
  let s2 := s1.dropWhile Char.isDigit
  let fracSplit : List Char × List Char :=
    match s2 with
    | '.' :: r => (r.takeWhile Char.isDigit, r.dropWhile Char.isDigit)
    | r => ([], r)
  let fracPart := fracSplit.1
  let s3 := fracSplit.2
  if intPart = [] ∧ fracPart = [] then none
  else
    let mant : ℝ :=
      sign * ((digitsVal intPart : ℝ) + (digitsVal fracPart : ℝ) / 10 ^ fracPart.length)
    match s3 with
    | [] => some mant
    | 'e' :: r => parse_exp mant r
    | 'E' :: r => parse_exp mant r
    | _ => none
where
  /-- The exponent suffix: optional sign then one or more digits. -/
  parse_exp (mant : ℝ) (r : List Char) : Option ℝ :=
    let esigned : ℤ × List Char :=
      match r with
      | '+' :: rr => (1, rr)
      | '-' :: rr => (-1, rr)
      | rr => (1, rr)
    let eds := esigned.2.takeWhile Char.isDigit
    let rest := esigned.2.dropWhile Char.isDigit
    if eds = [] ∨ rest ≠ [] then none
    else some (mant * (10 : ℝ) ^ (esigned.1 * (digitsVal eds : ℤ)))

/-- The inner collection loop of `parse_words`: gathers the value characters
after a letter, stopping at ASCII whitespace or an ASCII letter; returns the
collected characters and the remainder. -/
def takeNum : List Char → List Char × List Char
  | [] => ([], [])
  | c :: rest =>
    if is_ascii_ws c || c.isAlpha then ([], c :: rest)
    else
      let p := takeNum rest
      (c :: p.1, p.2)

theorem takeNum_length_le : ∀ l : List Char, (takeNum l).2.length ≤ l.length := by
  intro l
  induction l with
  | nil => simp [takeNum]
  | cons c rest ih =>
    by_cases h : (is_ascii_ws c || c.isAlpha) = true
    · simp [takeNum, h]
    · simp only [takeNum, h, if_false, Bool.false_eq_true]
      exact le_trans ih (Nat.le_succ _)

/-- `parse_words` from `lib.rs`, as a recursion over the character list. -/
noncomputable def parse_words_aux (options : ParseOptions) : List Char → Except GError (List Word)
  | [] => .ok []
  | c :: rest =>
    if is_ascii_ws c then parse_words_aux options rest
    else if c.isAlpha then
      let letter := c.toUpper
      let num := (takeNum rest).1
      let rest' := (takeNum rest).2
      if (trim num) = [] then
        if options.should_ignore_missing letter
            || (options.ignore_unknown_words && !is_known_letter letter) then
          parse_words_aux options rest'
        else .error (.malformedLine letter)
      else
        match parse_f64 (trim num) with
        | some value => (parse_words_aux options rest').map (fun ws => ⟨letter, value⟩ :: ws)
        | none => .error .malformedNumber
    else parse_words_aux options rest
termination_by l => l.length
decreasing_by
  all_goals simp only [List.length_cons]
  all_goals first
    | omega
    | exact Nat.lt_succ_of_le (takeNum_length_le rest)

/-- `parse_words` entry point. -/
noncomputable def parse_words (line : List Char) (options : ParseOptions) :
    Except GError (List Word) :=
  parse_words_aux options line

/-- The loop body of `strip_comments`, with the `in_paren` flag explicit. -/
def strip_comments_aux : List Char → Bool → List Char
  | [], _ => []
  | c :: rest, true =>
    if c = ')' then strip_comments_aux rest false else strip_comments_aux rest true
  | c :: rest, false =>
    if c = '(' then strip_comments_aux rest true
    else if c = ';' then []
    else c :: strip_comments_aux rest false

/-- `strip_comments` from `lib.rs`. -/
def strip_comments (line : List Char) : List Char :=
  strip_comments_aux line false

open scoped Classical

/-- `ARC_SEGMENT_LENGTH` from `lib.rs`. -/
def ARC_SEGMENT_LENGTH : ℝ := 0.5

/-- `plane_coords` from `lib.rs`. -/
def plane_coords (p : Vec3) (plane : Plane) : ℝ × ℝ :=
  match plane with
  | .XY => (p.x, p.y)
  | .XZ => (p.x, p.z)
  | .YZ => (p.y, p.z)

/-- Model of `f64::atan2`: `atan2 y x` is the argument of the complex
number `x + y i`, in the interval `(-pi, pi]`, with `atan2 0 0 = 0`. -/
noncomputable def atan2 (y x : ℝ) : ℝ := Complex.arg ⟨x, y⟩

/-- `sweep_for_center` from `lib.rs`: signed angular traversal from start
to end around the center, forced to the requested rotational sense
(`TAU` is `2 * pi`). -/
noncomputable def sweep_for_center (sx sy ex ey cx cy : ℝ) (clockwise : Bool) : ℝ :=
  let start_angle := atan2 (sy - cy) (sx - cx)
  let end_angle := atan2 (ey - cy) (ex - cx)
  let sweep := end_angle - start_angle
  if clockwise then
    if 0 ≤ sweep then sweep - 2 * Real.pi else sweep
  else
    if sweep ≤ 0 then sweep + 2 * Real.pi else sweep

/-- `select_center` from `lib.rs`: whether the first candidate center is
picked, given both direction-corrected sweeps and the large-arc flag. -/
noncomputable def select_center (sweep1 sweep2 : ℝ) (large : Bool) : Bool :=
  let s1 := |sweep1|
  let s2 := |sweep2|
  if large then
    if Real.pi < s1 ∧ s2 ≤ Real.pi then true
    else if Real.pi < s2 ∧ s1 ≤ Real.pi then false
    else decide (s2 ≤ s1)
  else
    if s1 ≤ Real.pi ∧ Real.pi < s2 then true
    else if s2 ≤ Real.pi ∧ Real.pi < s1 then false
    else decide (s1 ≤ s2)

/-- The plane-projected center written back into the third coordinate of
the start point: the trailing `match` of `arc_center_from_radius`. -/
def write_plane (start : Vec3) (plane : Plane) (cx cy : ℝ) : Vec3 :=
  match plane with
  | .XY => { start with x := cx, y := cy }
  | .XZ => { start with x := cx, z := cy }
  | .YZ => { start with y := cx, z := cy }

/-- The in-plane chord length computed by `arc_center_from_radius`. -/
noncomputable def chord_len (start endp : Vec3) (plane : Plane) : ℝ :=
  let s := plane_coords start plane
  let e := plane_coords endp plane
  Real.sqrt ((e.1 - s.1) * (e.1 - s.1) + (e.2 - s.2) * (e.2 - s.2))

/-- The two candidate centers of `arc_center_from_radius` (first the `+h`
candidate `c1`, then the `-h` candidate `c2`), in plane coordinates. -/
noncomputable def arc_candidates (start endp : Vec3) (radius : ℝ) (plane : Plane) :
    (ℝ × ℝ) × (ℝ × ℝ) :=
  let s := plane_coords start plane
  let e := plane_coords endp plane
  let dx := e.1 - s.1
  let dy := e.2 - s.2
  let chord := chord_len start endp plane
  let r_abs := |radius|
  let mid_x := (s.1 + e.1) * 0.5
  let mid_y := (s.2 + e.2) * 0.5
  let h_sq := r_abs * r_abs - (chord * 0.5) ^ 2
  let h := if h_sq ≤ 0 then 0 else Real.sqrt h_sq
  let perp_x := -dy / chord
  let perp_y := dx / chord
  ((mid_x + perp_x * h, mid_y + perp_y * h), (mid_x - perp_x * h, mid_y - perp_y * h))

/-- `arc_center_from_radius` from `lib.rs`. -/
noncomputable def arc_center_from_radius (start endp : Vec3) (radius : ℝ) (plane : Plane)
    (clockwise : Bool) : Except GError Vec3 :=
  let s := plane_coords start plane
  let e := plane_coords endp plane
  let chord := chord_len start endp plane
  if |chord| < 1e-9 then .error .arcDegenerate
  else if chord > 2 * |radius| + 1e-9 then .error .arcRadiusTooSmall
  else
    let c1 := (arc_candidates start endp radius plane).1
    let c2 := (arc_candidates start endp radius plane).2
    let sweep1 := sweep_for_center s.1 s.2 e.1 e.2 c1.1 c1.2 clockwise
    let sweep2 := sweep_for_center s.1 s.2 e.1 e.2 c2.1 c2.2 clockwise
    let large := radius < 0
    let pick_first := select_center sweep1 sweep2 large
    let c := if pick_first then c1 else c2
    .ok (write_plane start plane c.1 c.2)

/-- The center computed by `arc_center_from_offsets` before its
degeneracy check: start plus the plane-projected offsets, missing offsets
defaulting to zero. -/
def offsets_center (start : Vec3) (i j k : Option ℝ) (plane : Plane) : Vec3 :=
  match plane with
  | .XY => { start with x := start.x + i.getD 0, y := start.y + j.getD 0 }
  | .XZ => { start with x := start.x + i.getD 0, z := start.z + k.getD 0 }
  | .YZ => { start with y := start.y + j.getD 0, z := start.z + k.getD 0 }

/-- `arc_center_from_offsets` from `lib.rs`. -/
noncomputable def arc_center_from_offsets (start : Vec3) (i j k : Option ℝ) (plane : Plane) :
    Except GError Vec3 :=
  let center := offsets_center start i j k plane
  if center = start then .error .arcCenterMissing else .ok center

/-- `arc_center` from `lib.rs`. -/
noncomputable def arc_center (start endp : Vec3) (i j k r : Option ℝ) (plane : Plane)
    (clockwise : Bool) : Except GError Vec3 :=
  if i.isSome || j.isSome || k.isSome then arc_center_from_offsets start i j k plane
  else
    match r with
    | some radius => arc_center_from_radius start endp radius plane clockwise
    | none => .error .arcCenterMissing

/-- The in-plane distance between two points; `radius` in `arc_to_segments`
is `plane_dist start center plane`. -/
noncomputable def plane_dist (a b : Vec3) (plane : Plane) : ℝ :=
  let ap := plane_coords a plane
  let bp := plane_coords b plane
  Real.sqrt ((ap.1 - bp.1) ^ 2 + (ap.2 - bp.2) ^ 2)

/-- The sweep recomputed by `arc_to_segments` (textually the same
adjustment loop as `sweep_for_center`). -/
noncomputable def arc_sweep (start endp center : Vec3) (clockwise : Bool) (plane : Plane) : ℝ :=
  let s := plane_coords start plane
  let e := plane_coords endp plane
  let c := plane_coords center plane
  sweep_for_center s.1 s.2 e.1 e.2 c.1 c.2 clockwise

/-- The step count chosen by `arc_to_segments`: the arc length divided by
the target segment length, rounded up, at least one. -/
noncomputable def arc_steps (start endp center : Vec3) (clockwise : Bool)
    (plane : Plane) : ℕ :=
  let radius := plane_dist start center plane
  let arc_length := radius * |arc_sweep start endp center clockwise plane|
  (Int.toNat ⌈arc_length / ARC_SEGMENT_LENGTH⌉).max 1

/-- The point emitted by `arc_to_segments` at parametric fraction `t`:
in-plane rotation around the center, third axis linearly interpolated. -/
noncomputable def arc_point (start endp : Vec3) (cx cy radius start_angle sweep : ℝ)
    (plane : Plane) (t : ℝ) : Vec3 :=
  let angle := start_angle + sweep * t
  let px := cx + radius * Real.cos angle
  let py := cy + radius * Real.sin angle
  match plane with
  | .XY => { x := px, y := py, z := start.z + (endp.z - start.z) * t }
  | .XZ => { x := px, z := py, y := start.y + (endp.y - start.y) * t }
  | .YZ => { y := px, z := py, x := start.x + (endp.x - start.x) * t }

/-- `arc_to_segments` from `lib.rs`.  The source chains `prev` through the
loop; segment `idx` (0-based) runs from the point at fraction `idx/steps`
(the start point itself for `idx = 0`) to the point at `(idx+1)/steps`. -/
noncomputable def arc_to_segments (start endp center : Vec3) (clockwise : Bool)
    (plane : Plane) : List LineSegment :=
  let s := plane_coords start plane
  let c := plane_coords center plane
  let radius := plane_dist start center plane
  if |radius| < 1e-6 then []
  else
    let start_angle := atan2 (s.2 - c.2) (s.1 - c.1)
    let sweep := arc_sweep start endp center clockwise plane
    let steps := arc_steps start endp center clockwise plane
    (List.range steps).map fun (idx : ℕ) =>
      { start := if idx = 0 then start
                 else arc_point start endp c.1 c.2 radius start_angle sweep plane
                        ((idx : ℝ) / (steps : ℝ)),
        stop := arc_point start endp c.1 c.2 radius start_angle sweep plane
                  (((idx : ℝ) + 1) / (steps : ℝ)),
        kind := .Feed }

/-- `Parser` from `lib.rs`. -/
structure Parser where
  state : ParserState
  segments : List LineSegment
  bounds : Bounds3
  stats : ToolpathStats
  options : ParseOptions
  line_segment_ends : List Nat

/-- `Parser::new`. -/
def Parser.new (options : ParseOptions) : Parser :=
  { state := ParserState.new, segments := [], bounds := Bounds3.new,
    stats := ToolpathStats.default, options := options, line_segment_ends := [] }

/-- `Parser::finish`. -/
def Parser.finish (p : Parser) : Toolpath :=
  { segments := p.segments, bounds := p.bounds,
    stats := { p.stats with segment_count := p.segments.length },
    line_segment_ends := p.line_segment_ends }

/-- `apply_axis` from `lib.rs` (the axis starts out holding the current
coordinate, so a missing input keeps it). -/
def apply_axis (input : Option ℝ) (current : ℝ) (mode : DistanceMode) : ℝ :=
  match input with
  | none => current
  | some value =>
    match mode with
    | .Absolute => value
    | .Relative => current + value

/-- The target position of a move: `apply_axis` on each coordinate. -/
def move_target (state : ParserState) (x y z : Option ℝ) : Vec3 :=
  ⟨apply_axis x state.pos.x state.distance_mode,
   apply_axis y state.pos.y state.distance_mode,
   apply_axis z state.pos.z state.distance_mode⟩

/-- `Parser::add_linear_move` from `lib.rs`. -/
noncomputable def add_linear_move (p : Parser) (x y z : Option ℝ) (kind : MoveKind) : Parser :=
  let start := p.state.pos
  let endp := move_target p.state x y z
  if endp = start then p
  else
    { p with
      segments := p.segments ++ [⟨start, endp, kind⟩],
      bounds := (p.bounds.include start).include endp,
      state := { p.state with pos := endp },
      stats :=
        match kind with
        | .Rapid => { p.stats with rapid_moves := p.stats.rapid_moves + 1 }
        | .Feed => { p.stats with feed_moves := p.stats.feed_moves + 1 } }

/-- `Parser::add_arc_move` from `lib.rs`. -/
noncomputable def add_arc_move (p : Parser) (x y z i j k r : Option ℝ) (clockwise : Bool) :
    Except GError Parser :=
  let start := p.state.pos
  let endp := move_target p.state x y z
  if endp = start then .ok p
  else
    match arc_center start endp i j k r p.state.plane clockwise with
    | .error e => .error e
    | .ok center =>
      let segs := arc_to_segments start endp center clockwise p.state.plane
      if segs = [] then .ok p
      else
        .ok { p with
          segments := p.segments ++ segs,
          bounds := segs.foldl (fun b s => (b.include s.start).include s.stop) p.bounds,
          state := { p.state with pos := endp },
          stats := { p.stats with arc_moves := p.stats.arc_moves + 1,
                                  feed_moves := p.stats.feed_moves + 1 } }

/-- The per-line locals of `Parser::parse_line`, threaded through the
word loop together with the modal state. -/
structure LineAcc where
  state : ParserState
  motion_override : Option MotionMode
  x : Option ℝ
  y : Option ℝ
  z : Option ℝ
  i : Option ℝ
  j : Option ℝ
  k : Option ℝ
  r : Option ℝ

/-- Model of `f64::round`: nearest integer, halfway cases away from zero. -/
noncomputable def rust_round (v : ℝ) : ℤ :=
  if 0 ≤ v then ⌊v + 1 / 2⌋ else -⌊-v + 1 / 2⌋

/-- One iteration of the word loop of `Parser::parse_line`. -/
noncomputable def process_word (acc : LineAcc) (w : Word) : LineAcc :=
  match w.letter with
  | 'G' =>
    let code := rust_round w.value
    if code = 0 then
      { acc with motion_override := some .Rapid,
                 state := { acc.state with motion_mode := .Rapid } }
    else if code = 1 then
      { acc with motion_override := some .Feed,
                 state := { acc.state with motion_mode := .Feed } }
    else if code = 2 then
      { acc with motion_override := some .ArcCW,
                 state := { acc.state with motion_mode := .ArcCW } }
    else if code = 3 then
      { acc with motion_override := some .ArcCCW,
                 state := { acc.state with motion_mode := .ArcCCW } }
    else if code = 17 then { acc with state := { acc.state with plane := .XY } }
    else if code = 18 then { acc with state := { acc.state with plane := .XZ } }
    else if code = 19 then { acc with state := { acc.state with plane := .YZ } }
    else if code = 20 then { acc with state := { acc.state with units_scale := 25.4 } }
    else if code = 21 then { acc with state := { acc.state with units_scale := 1 } }
    else if code = 90 then { acc with state := { acc.state with distance_mode := .Absolute } }
    else if code = 91 then { acc with state := { acc.state with distance_mode := .Relative } }
    else acc
  | 'X' => { acc with x := some (w.value * acc.state.units_scale) }
  | 'Y' => { acc with y := some (w.value * acc.state.units_scale) }
  | 'Z' => { acc with z := some (w.value * acc.state.units_scale) }
  | 'I' => { acc with i := some (w.value * acc.state.units_scale) }
  | 'J' => { acc with j := some (w.value * acc.state.units_scale) }
  | 'K' => { acc with k := some (w.value * acc.state.units_scale) }
  | 'R' => { acc with r := some (w.value * acc.state.units_scale) }
  | _ => acc

/-- The fresh per-line accumulator. -/
def LineAcc.init (state : ParserState) : LineAcc :=
  { state := state, motion_override := none,
    x := none, y := none, z := none, i := none, j := none, k := none, r := none }

/-- `Parser::parse_line` from `lib.rs`. -/
noncomputable def parse_line (p0 : Parser) (line : List Char) : Except GError Parser :=
  let p := { p0 with stats := { p0.stats with line_count := p0.stats.line_count + 1 } }
  let cleaned := trim (strip_comments line)
  if cleaned = [] then
    .ok { p with line_segment_ends := p.line_segment_ends ++ [p.segments.length] }
  else
    match parse_words cleaned p.options with
    | .error e => .error e
    | .ok words =>
      if words = [] then
        .ok { p with line_segment_ends := p.line_segment_ends ++ [p.segments.length] }
      else
        let acc := words.foldl process_word (LineAcc.init p.state)
        let p := { p with state := acc.state }
        let motion : Option MotionMode :=
          if acc.motion_override.isSome then acc.motion_override
          else if acc.x.isSome || acc.y.isSome || acc.z.isSome
              || acc.i.isSome || acc.j.isSome || acc.k.isSome then
            some acc.state.motion_mode
          else none
        let res : Except GError Parser :=
          match motion with
          | none => .ok p
          | some .Rapid => .ok (add_linear_move p acc.x acc.y acc.z .Rapid)
          | some .Feed => .ok (add_linear_move p acc.x acc.y acc.z .Feed)
          | some .ArcCW => add_arc_move p acc.x acc.y acc.z acc.i acc.j acc.k acc.r true
          | some .ArcCCW => add_arc_move p acc.x acc.y acc.z acc.i acc.j acc.k acc.r false
        match res with
        | .error e => .error e
        | .ok p' =>
          .ok { p' with line_segment_ends := p'.line_segment_ends ++ [p'.segments.length] }

/-- The line loop of `parse_file_with_options`. -/
noncomputable def run_lines : Parser → List (List Char) → Except GError Parser
  | p, [] => .ok p
  | p, l :: rest =>
    match parse_line p l with
    | .error e => .error e
    | .ok p' => run_lines p' rest

/-- `parse_file_with_options` from `lib.rs`, with the file replaced by its
list of lines (file reading is an external collaborator). -/
noncomputable def parse_lines (lines : List (List Char)) (options : ParseOptions) :
    Except GError Toolpath :=
  (run_lines (Parser.new options) lines).map Parser.finish

/-! ## Helper lemmas -/

theorem chord_len_nonneg (start endp : Vec3) (plane : Plane) :
    0 ≤ chord_len start endp plane := Real.sqrt_nonneg _

theorem plane_dist_nonneg (a b : Vec3) (plane : Plane) :
    0 ≤ plane_dist a b plane := Real.sqrt_nonneg _

/-! ## C3: the arc solver error taxonomy -/

/-- C3: `arc_center` fails with `ArcCenterMissing` exactly when no offset and
no radius is supplied, or some offset is present but the computed center
equals the start exactly; with `ArcDegenerate` exactly when radius form is
used and the in-plane chord is below the `1e-9` tolerance; with
`ArcRadiusTooSmall` exactly when radius form is used and the chord exceeds
twice the absolute radius beyond the `1e-9` tolerance; otherwise it returns
a center. -/
theorem arc_center_errors (start endp : Vec3) (i j k r : Option ℝ)
    (plane : Plane) (cw : Bool) :
    (arc_center start endp i j k r plane cw = .error .arcCenterMissing ↔
      ((i = none ∧ j = none ∧ k = none ∧ r = none) ∨
       ((i.isSome ∨ j.isSome ∨ k.isSome) ∧ offsets_center start i j k plane = start)))
    ∧ (arc_center start endp i j k r plane cw = .error .arcDegenerate ↔
        (i = none ∧ j = none ∧ k = none ∧ r.isSome ∧
         chord_len start endp plane < 1e-9))
    ∧ (arc_center start endp i j k r plane cw = .error .arcRadiusTooSmall ↔
        (i = none ∧ j = none ∧ k = none ∧
         (∃ rv, r = some rv ∧ ¬ chord_len start endp plane < 1e-9 ∧
           chord_len start endp plane > 2 * |rv| + 1e-9)))
    ∧ ((∃ c, arc_center start endp i j k r plane cw = .ok c) ↔
        ¬ (((i = none ∧ j = none ∧ k = none ∧ r = none) ∨
            ((i.isSome ∨ j.isSome ∨ k.isSome) ∧ offsets_center start i j k plane = start)) ∨
           (i = none ∧ j = none ∧ k = none ∧ r.isSome ∧
            chord_len start endp plane < 1e-9) ∨
           (i = none ∧ j = none ∧ k = none ∧
            (∃ rv, r = some rv ∧ ¬ chord_len start endp plane < 1e-9 ∧
              chord_len start endp plane > 2 * |rv| + 1e-9)))) := by
  have habs : |chord_len start endp plane| = chord_len start endp plane :=
    abs_of_nonneg (chord_len_nonneg start endp plane)
  by_cases hoff : (i.isSome || j.isSome || k.isSome) = true
  · have hoff' : i.isSome ∨ j.isSome ∨ k.isSome := by
      rcases Bool.or_eq_true_iff.mp hoff with h | h
      · rcases Bool.or_eq_true_iff.mp h with h | h
        · exact Or.inl h
        · exact Or.inr (Or.inl h)
      · exact Or.inr (Or.inr h)
    have hnotall : ¬ (i = none ∧ j = none ∧ k = none ∧ r = none) := by
      rintro ⟨hi, hj, hk, -⟩
      rcases hoff' with h | h | h <;> simp_all
    have hnotall3 : ¬ (i = none ∧ j = none ∧ k = none) := by
      rintro ⟨hi, hj, hk⟩
      rcases hoff' with h | h | h <;> simp_all
    unfold arc_center arc_center_from_offsets
    rw [if_pos hoff]
    by_cases hc : offsets_center start i j k plane = start
    · rw [if_pos hc]
      refine ⟨?_, ?_, ?_, ?_⟩
      · simp [hoff', hc]
      · constructor
        · intro h; simp at h
        · rintro ⟨h1, h2, h3, -⟩; exact absurd ⟨h1, h2, h3⟩ hnotall3
      · constructor
        · intro h; simp at h
        · rintro ⟨h1, h2, h3, -⟩; exact absurd ⟨h1, h2, h3⟩ hnotall3
      · constructor
        · rintro ⟨c, hcc⟩; simp at hcc
        · intro h; exact absurd (Or.inl (Or.inr ⟨hoff', hc⟩)) h
    · rw [if_neg hc]
      refine ⟨?_, ?_, ?_, ?_⟩
      · constructor
        · intro h; simp at h
        · rintro (⟨h1, h2, h3, -⟩ | ⟨-, h⟩)
          · exact absurd ⟨h1, h2, h3⟩ hnotall3
          · exact absurd h hc
      · constructor
        · intro h; simp at h
        · rintro ⟨h1, h2, h3, -⟩; exact absurd ⟨h1, h2, h3⟩ hnotall3
      · constructor
        · intro h; simp at h
        · rintro ⟨h1, h2, h3, -⟩; exact absurd ⟨h1, h2, h3⟩ hnotall3
      · constructor
        · intro _
          rintro ((⟨h1, h2, h3, -⟩ | ⟨-, h⟩) | ⟨h1, h2, h3, -⟩ | ⟨h1, h2, h3, -⟩)
          · exact absurd ⟨h1, h2, h3⟩ hnotall3
          · exact absurd h hc
          · exact absurd ⟨h1, h2, h3⟩ hnotall3
          · exact absurd ⟨h1, h2, h3⟩ hnotall3
        · intro _; exact ⟨_, rfl⟩
  · have hi : i = none := by cases i <;> simp_all
    have hj : j = none := by
      cases j with
      | none => rfl
      | some v => simp [hi] at hoff
    have hk : k = none := by
      cases k with
      | none => rfl
      | some v => simp [hi, hj] at hoff
    subst hi; subst hj; subst hk
    unfold arc_center
    rw [if_neg hoff]
    cases r with
    | none => refine ⟨?_, ?_, ?_, ?_⟩ <;> simp
    | some rv =>
      simp only [arc_center_from_radius, habs]
      by_cases hdeg : chord_len start endp plane < 1e-9
      · rw [if_pos hdeg]
        refine ⟨?_, ?_, ?_, ?_⟩
        · constructor
          · intro h; simp at h
          · rintro (⟨-, -, -, h⟩ | ⟨h, -⟩) <;> simp at h
        · simp [hdeg]
        · constructor
          · intro h; simp at h
          · rintro ⟨-, -, -, rv2, -, h, -⟩; exact absurd hdeg h
        · constructor
          · rintro ⟨c, hcc⟩; simp at hcc
          · intro h; exact absurd (Or.inr (Or.inl ⟨by simp, by simp, by simp, by simp, hdeg⟩)) h
      · rw [if_neg hdeg]
        by_cases hsmall : chord_len start endp plane > 2 * |rv| + 1e-9
        · rw [if_pos hsmall]
          refine ⟨?_, ?_, ?_, ?_⟩
          · constructor
            · intro h; simp at h
            · rintro (⟨-, -, -, h⟩ | ⟨h, -⟩) <;> simp at h
          · constructor
            · intro h; simp at h
            · rintro ⟨-, -, -, -, h⟩; exact absurd h hdeg
          · constructor
            · intro _; exact ⟨by simp, by simp, by simp, rv, by simp, hdeg, hsmall⟩
            · intro _; rfl
          · constructor
            · rintro ⟨c, hcc⟩; simp at hcc
            · intro h
              exact absurd (Or.inr (Or.inr ⟨by simp, by simp, by simp, rv, by simp, hdeg, hsmall⟩)) h
        · rw [if_neg hsmall]
          refine ⟨?_, ?_, ?_, ?_⟩
          · constructor
            · intro h; simp at h
            · rintro (⟨-, -, -, h⟩ | ⟨h, -⟩) <;> simp at h
          · constructor
            · intro h; simp at h
            · rintro ⟨-, -, -, -, h⟩; exact absurd h hdeg
          · constructor
            · intro h; simp at h
            · rintro ⟨-, -, -, rv2, hrv2, -, h⟩
              rw [Option.some.injEq] at hrv2
              subst hrv2
              exact absurd h hsmall
          · constructor
            · intro _
              rintro ((⟨-, -, -, h⟩ | ⟨h, -⟩) | ⟨-, -, -, -, h⟩ | ⟨-, -, -, rv2, hrv2, -, h⟩)
              · simp at h
              · simp at h
              · exact absurd h hdeg
              · rw [Option.some.injEq] at hrv2; subst hrv2; exact absurd h hsmall
            · intro _; exact ⟨_, rfl⟩

/-! ## C10: an arc whose solved center (numerically) coincides with the
start point rasterizes to nothing and is a silent no-op -/

/-- C10: when the solved center lies within `1e-6` in-plane distance of the
start point, `add_arc_move` succeeds and returns the parser unchanged: no
segments, no bounds or statistics update, and the position stays at the
start point rather than advancing to the commanded end point. -/
theorem add_arc_move_degenerate_center (p : Parser) (x y z i j k r : Option ℝ)
    (cw : Bool) (c : Vec3)
    (hc : arc_center p.state.pos (move_target p.state x y z) i j k r
            p.state.plane cw = .ok c)
    (hdist : plane_dist p.state.pos c p.state.plane < 1e-6) :
    add_arc_move p x y z i j k r cw = .ok p := by
  unfold add_arc_move
  by_cases he : move_target p.state x y z = p.state.pos
  · rw [if_pos he]
  · have hempty : arc_to_segments p.state.pos (move_target p.state x y z) c cw
        p.state.plane = [] := by
      simp only [arc_to_segments]
      rw [abs_of_nonneg (plane_dist_nonneg _ _ _), if_pos hdist]
    rw [if_neg he, hc]
    simp [hempty]

/-- Witness for C10: from the origin, `G2 X1 I0.0000001` solves the center
`(1e-7, 0, 0)`, which is within `1e-6` of the start, so the arc move is a
complete no-op. -/
theorem add_arc_move_degenerate_center_witness :
    add_arc_move (Parser.new ParseOptions.default) (some 1) none none
      (some 1e-7) none none none true = .ok (Parser.new ParseOptions.default) := by
  have hc : arc_center (Parser.new ParseOptions.default).state.pos
      (move_target (Parser.new ParseOptions.default).state (some 1) none none)
      (some 1e-7) none none none (Parser.new ParseOptions.default).state.plane true
      = .ok ⟨1e-7, 0, 0⟩ := by
    unfold arc_center arc_center_from_offsets
    have hne : offsets_center (Parser.new ParseOptions.default).state.pos
        (some 1e-7) none none (Parser.new ParseOptions.default).state.plane
        ≠ (Parser.new ParseOptions.default).state.pos := by
      simp only [Parser.new, ParserState.new, offsets_center, Option.getD]
      intro h
      have := congrArg Vec3.x h
      norm_num at this
    rw [if_pos (by simp)]
    rw [if_neg hne]
    simp [Parser.new, ParserState.new, offsets_center, Option.getD]
  have hdist : plane_dist (Parser.new ParseOptions.default).state.pos ⟨1e-7, 0, 0⟩
      (Parser.new ParseOptions.default).state.plane < 1e-6 := by
    simp only [Parser.new, ParserState.new, plane_dist, plane_coords]
    have : ((0:ℝ) - 1e-7) ^ 2 + (0 - 0) ^ 2 = (1e-7 : ℝ) ^ 2 := by ring
    rw [this, Real.sqrt_sq (by norm_num : (0:ℝ) ≤ 1e-7)]
    norm_num
  exact add_arc_move_degenerate_center _ _ _ _ _ _ _ _ _ _ hc hdist


/-! ## Linear move helper lemmas -/

@[ext] theorem Vec3.ext {a b : Vec3} (hx : a.x = b.x) (hy : a.y = b.y)
    (hz : a.z = b.z) : a = b := by
  cases a; cases b; simp_all

/-- A linear move whose target equals the current position is a no-op. -/
theorem add_linear_move_noop (p : Parser) (x y z : Option ℝ) (kind : MoveKind)
    (h : move_target p.state x y z = p.state.pos) :
    add_linear_move p x y z kind = p := by
  unfold add_linear_move
  rw [if_pos h]

/-- A linear move whose target differs from the current position emits one
segment, widens the bounds with both endpoints, advances the position and
bumps the matching statistic. -/
theorem add_linear_move_spec (p : Parser) (x y z : Option ℝ) (kind : MoveKind)
    (h : move_target p.state x y z ≠ p.state.pos) :
    add_linear_move p x y z kind =
      { p with
        segments := p.segments ++ [⟨p.state.pos, move_target p.state x y z, kind⟩],
        bounds := (p.bounds.include p.state.pos).include (move_target p.state x y z),
        state := { p.state with pos := move_target p.state x y z },
        stats :=
          match kind with
          | .Rapid => { p.stats with rapid_moves := p.stats.rapid_moves + 1 }
          | .Feed => { p.stats with feed_moves := p.stats.feed_moves + 1 } } := by
  unfold add_linear_move
  rw [if_neg h]

/-! ## C8: relative-move round trip -/

/-- C8: in relative distance mode, a move by `(dx, dy, dz)` followed by the
exact inverse move returns the position to exactly its prior value and
appends exactly two segments that are mirror images of each other. -/
theorem relative_move_round_trip (p : Parser) (dx dy dz : ℝ) (k1 k2 : MoveKind)
    (hmode : p.state.distance_mode = .Relative)
    (hnz : ¬ (dx = 0 ∧ dy = 0 ∧ dz = 0)) :
    (add_linear_move (add_linear_move p (some dx) (some dy) (some dz) k1)
        (some (-dx)) (some (-dy)) (some (-dz)) k2).state.pos = p.state.pos ∧
    ∃ s1 s2,
      (add_linear_move (add_linear_move p (some dx) (some dy) (some dz) k1)
          (some (-dx)) (some (-dy)) (some (-dz)) k2).segments
        = p.segments ++ [s1, s2] ∧
      s2.start = s1.stop ∧ s2.stop = s1.start := by
  have hmt1 : move_target p.state (some dx) (some dy) (some dz) =
      ⟨p.state.pos.x + dx, p.state.pos.y + dy, p.state.pos.z + dz⟩ := by
    simp [move_target, apply_axis, hmode]
  have hne1 : move_target p.state (some dx) (some dy) (some dz) ≠ p.state.pos := by
    rw [hmt1]
    intro h
    refine hnz ⟨?_, ?_, ?_⟩
    · have := congrArg Vec3.x h; simpa using this
    · have := congrArg Vec3.y h; simpa using this
    · have := congrArg Vec3.z h; simpa using this
  have h1 := add_linear_move_spec p (some dx) (some dy) (some dz) k1 hne1
  set E1 := move_target p.state (some dx) (some dy) (some dz) with hE1
  set p1 := add_linear_move p (some dx) (some dy) (some dz) k1 with hp1
  have hst1 : p1.state = { p.state with pos := E1 } := by rw [h1]
  have hseg1 : p1.segments = p.segments ++ [⟨p.state.pos, E1, k1⟩] := by rw [h1]
  have hmt2 : move_target p1.state (some (-dx)) (some (-dy)) (some (-dz)) = p.state.pos := by
    simp only [hst1, move_target, apply_axis, hmode]
    rw [hmt1]
    ext <;> dsimp <;> ring
  have hne2 : move_target p1.state (some (-dx)) (some (-dy)) (some (-dz)) ≠ p1.state.pos := by
    rw [hmt2]
    show p.state.pos ≠ p1.state.pos
    rw [hst1]
    show p.state.pos ≠ E1
    exact fun h => hne1 h.symm
  have h2 := add_linear_move_spec p1 (some (-dx)) (some (-dy)) (some (-dz)) k2 hne2
  constructor
  · rw [h2]
    simp only
    rw [hmt2]
  · refine ⟨⟨p.state.pos, E1, k1⟩, ⟨p1.state.pos, move_target p1.state (some (-dx)) (some (-dy)) (some (-dz)), k2⟩, ?_, ?_, ?_⟩
    · rw [h2]
      simp only
      rw [hseg1, List.append_assoc]
      rfl
    · simp only
      rw [hst1]
    · simp only
      rw [hmt2]

/-- Witness for C8: from the fresh parser switched to relative mode, a feed
move by `(3, 4, 5)` and back produces mirror segments and restores the
origin. -/
theorem relative_move_round_trip_witness :
    (add_linear_move
        (add_linear_move
          { Parser.new ParseOptions.default with
            state := { ParserState.new with distance_mode := .Relative } }
          (some 3) (some 4) (some 5) .Feed)
        (some (-3)) (some (-4)) (some (-5)) .Feed).state.pos
      = { Parser.new ParseOptions.default with
          state := { ParserState.new with distance_mode := .Relative } }.state.pos ∧
    ∃ s1 s2,
      (add_linear_move
          (add_linear_move
            { Parser.new ParseOptions.default with
              state := { ParserState.new with distance_mode := .Relative } }
            (some 3) (some 4) (some 5) .Feed)
          (some (-3)) (some (-4)) (some (-5)) .Feed).segments
        = { Parser.new ParseOptions.default with
            state := { ParserState.new with distance_mode := .Relative } }.segments
          ++ [s1, s2] ∧
      s2.start = s1.stop ∧ s2.stop = s1.start :=
  relative_move_round_trip _ 3 4 5 .Feed .Feed rfl (by norm_num)



/-! ## Lexer helper lemmas -/

/-- ASCII whitespace characters are not ASCII letters. -/
theorem not_ws_of_isAlpha {c : Char} (h : c.isAlpha = true) : is_ascii_ws c = false := by
  by_contra hserver
  have hws : is_ascii_ws c = true := by
    cases heq : is_ascii_ws c
    · exact absurd heq hserver
    · rfl
  unfold is_ascii_ws at hws
  simp only [Bool.or_eq_true, decide_eq_true_eq] at hws
  rcases hws with ((((h1 | h1) | h1) | h1) | h1) <;> subst h1 <;> exact absurd h (by decide)

/-- The value-collection loop splits off exactly the non-whitespace,
non-letter prefix. -/
theorem takeNum_append (num rest : List Char)
    (hnum : ∀ ch ∈ num, is_ascii_ws ch = false ∧ ch.isAlpha = false)
    (hrest : rest = [] ∨
      ∃ ch rest2, rest = ch :: rest2 ∧ (is_ascii_ws ch = true ∨ ch.isAlpha = true)) :
    takeNum (num ++ rest) = (num, rest) := by
  induction num with
  | nil =>
    rcases hrest with h | ⟨ch, rest2, hr, hor⟩
    · subst h; simp [takeNum]
    · subst hr
      have hb : (is_ascii_ws ch || ch.isAlpha) = true := by
        rcases hor with h | h <;> simp [h]
      simp [takeNum, hb]
  | cons d dtl ih =>
    have hd := hnum d (by simp)
    have hb : (is_ascii_ws d || d.isAlpha) = false := by simp [hd.1, hd.2]
    simp [takeNum, hb, ih (fun ch hch => hnum ch (by simp [hch]))]

/-- Outside a parenthesis, characters that are neither `(` nor `;` pass
through `strip_comments` unchanged. -/
theorem strip_aux_plain (a rest : List Char) (hp : '(' ∉ a) (hs : ';' ∉ a) :
    strip_comments_aux (a ++ rest) false = a ++ strip_comments_aux rest false := by
  induction a with
  | nil => simp
  | cons c tl ih =>
    have hc1 : ¬ c = '(' := fun h => hp (by simp [h])
    have hc2 : ¬ c = ';' := fun h => hs (by simp [h])
    simp only [List.cons_append, strip_comments_aux, if_neg hc1, if_neg hc2,
      List.mem_cons] at *
    exact congrArg (c :: ·) (ih (fun h => hp (Or.inr h)) (fun h => hs (Or.inr h)))

/-- Inside a parenthesis, everything up to the closing `)` is dropped. -/
theorem strip_aux_paren (b rest : List Char) (hb : ')' ∉ b) :
    strip_comments_aux (b ++ ')' :: rest) true = strip_comments_aux rest false := by
  induction b with
  | nil => simp [strip_comments_aux]
  | cons c tl ih =>
    have hc : ¬ c = ')' := fun h => hb (by simp [h])
    simp only [List.cons_append, strip_comments_aux, if_neg hc]
    exact ih (fun h => hb (List.mem_cons_of_mem _ h))


/-- One scanner step at a letter whose collected value text is empty:
tolerated letters are dropped, others fail naming the letter. -/
theorem parse_words_step_missing (opts : ParseOptions) (c : Char) (rest : List Char)
    (halpha : c.isAlpha = true)
    (hempty : trim (takeNum rest).1 = []) :
    parse_words_aux opts (c :: rest) =
      if opts.should_ignore_missing c.toUpper
          || (opts.ignore_unknown_words && !is_known_letter c.toUpper) then
        parse_words_aux opts (takeNum rest).2
      else .error (.malformedLine c.toUpper) := by
  have hws := not_ws_of_isAlpha halpha
  rw [parse_words_aux]
  simp only [hws, Bool.false_eq_true, if_false, halpha, if_true, hempty, if_pos rfl]

/-- Characters of a line that contains no ASCII whitespace are untouched
by `trim`. -/
theorem trim_no_ws (l : List Char) (h : ∀ ch ∈ l, is_ascii_ws ch = false) :
    trim l = l := by
  have drop : ∀ m : List Char, (∀ ch ∈ m, is_ascii_ws ch = false) →
      m.dropWhile is_ascii_ws = m := by
    intro m hm
    cases m with
    | nil => rfl
    | cons c tl => simp [List.dropWhile, hm c (by simp)]
  unfold trim
  rw [drop l h, drop l.reverse (fun ch hch => h ch (List.mem_reverse.mp hch)),
    List.reverse_reverse]

/-! ## C6: tolerance of letters with a missing value (corrected) -/

/-- C6 counterexample: the word `X+` (letter followed by a non-empty but
unparseable value) is NOT silently dropped even though `X` is in the
tolerated-missing set: the float parse fails and lexing errors out, so the
case "letter followed by no parseable numeric literal" is not always
tolerated. -/
theorem missing_value_tolerance_counterexample :
    parse_words ['X', '+'] (ParseOptions.with_ignore_missing ['X'])
      = .error .malformedNumber ∧
    (∀ ws, parse_words ['X', '+'] (ParseOptions.with_ignore_missing ['X']) ≠ .ok ws) := by
  have h : parse_words ['X', '+'] (ParseOptions.with_ignore_missing ['X'])
      = .error .malformedNumber := by
    simp +decide [parse_words, parse_words_aux, is_ascii_ws, takeNum, trim, parse_f64,
      parse_f64.parse_exp, digitsVal, ParseOptions.with_ignore_missing,
      ParseOptions.should_ignore_missing, Except.map]
  exact ⟨h, fun ws hws => by rw [h] at hws; exact Except.noConfusion hws⟩

/-- C6 (amended): a letter whose collected value text is EMPTY (nothing
before the next whitespace, letter or end of line) is silently dropped when
the letter is in the tolerated-missing set, or when the tolerate-unknown
option is set and the letter is not one of the recognized letters
G, X, Y, Z, I, J, K, R; otherwise lexing fails with `MalformedLine` naming
the uppercased letter.  (A non-empty value that fails numeric parsing is a
different error, regardless of tolerance: see the counterexample.) -/
theorem missing_value_tolerance (opts : ParseOptions) (c : Char) (rest : List Char)
    (halpha : c.isAlpha = true)
    (hempty : trim (takeNum rest).1 = []) :
    (parse_words_aux opts (c :: rest) =
      if opts.should_ignore_missing c.toUpper
          || (opts.ignore_unknown_words && !is_known_letter c.toUpper) then
        parse_words_aux opts (takeNum rest).2
      else .error (.malformedLine c.toUpper))
    ∧ (∀ l : Char, is_known_letter l = true ↔
        (l = 'G' ∨ l = 'X' ∨ l = 'Y' ∨ l = 'Z' ∨ l = 'I' ∨ l = 'J' ∨ l = 'K' ∨ l = 'R')) := by
  constructor
  · exact parse_words_step_missing opts c rest halpha hempty
  · intro l
    unfold is_known_letter
    simp only [Bool.or_eq_true, decide_eq_true_eq]
    tauto

/-- Witness for C6: the tolerated lone letter `E` in `T1 E` style input is
dropped: lexing `E` alone with `E` tolerated yields no words, while the
untolerated lone letter `Q` is a `MalformedLine` naming `Q`. -/
theorem missing_value_tolerance_witness :
    parse_words_aux (ParseOptions.with_ignore_missing ['E']) ['E'] = .ok [] ∧
    parse_words_aux ParseOptions.default ['Q'] = .error (.malformedLine 'Q') := by
  constructor
  · have h := (missing_value_tolerance (ParseOptions.with_ignore_missing ['E']) 'E' []
      (by decide) (by decide)).1
    rw [h]
    simp +decide [ParseOptions.with_ignore_missing, ParseOptions.should_ignore_missing,
      takeNum, parse_words_aux]
  · have h := (missing_value_tolerance ParseOptions.default 'Q' []
      (by decide) (by decide)).1
    rw [h]
    simp +decide [ParseOptions.default, ParseOptions.should_ignore_missing]



/-! ## C7: the lexer pipeline (corrected) -/

/-- C7 counterexample: whitespace inside a value is NOT skipped.  `X 10`
(whitespace between the letter and its digits) is a missing-value error, not
the word `X = 10`; and `X1 0` yields `X = 1` with the `0` skipped as a
separator, not `X = 10`. -/
theorem lexer_whitespace_counterexample :
    parse_words (trim (strip_comments ['X', ' ', '1', '0'])) ParseOptions.default
      = .error (.malformedLine 'X') ∧
    parse_words (trim (strip_comments ['X', '1', ' ', '0'])) ParseOptions.default
      = .ok [⟨'X', 1⟩] := by
  constructor
  · simp +decide [parse_words, parse_words_aux, strip_comments, strip_comments_aux,
      is_ascii_ws, takeNum, trim, parse_f64, parse_f64.parse_exp, digitsVal,
      ParseOptions.default, ParseOptions.should_ignore_missing, Except.map]
  · simp +decide [parse_words, parse_words_aux, strip_comments, strip_comments_aux,
      is_ascii_ws, takeNum, trim, parse_f64, parse_f64.parse_exp, digitsVal,
      ParseOptions.default, ParseOptions.should_ignore_missing, Except.map]

/-- C7 (amended): the lexer removes parenthesized comments and everything
from a semicolon onward, then scans for (letter, numeric-literal) pairs,
uppercasing the letter and skipping non-letter separator characters between
words — but whitespace TERMINATES a numeric value: whitespace between a
letter and its digits leaves the value empty (the missing-value condition),
it is not skipped. -/
theorem lexer_pipeline :
    (∀ a b cont : List Char, '(' ∉ a → ';' ∉ a → ')' ∉ b →
      strip_comments (a ++ '(' :: b ++ ')' :: cont) = a ++ strip_comments cont)
    ∧ (∀ a b : List Char, '(' ∉ a → ';' ∉ a →
      strip_comments (a ++ ';' :: b) = a)
    ∧ (∀ (opts : ParseOptions) (c : Char) (num rest : List Char) (v : ℝ),
        c.isAlpha = true →
        (∀ ch ∈ num, is_ascii_ws ch = false ∧ ch.isAlpha = false) →
        num ≠ [] →
        (rest = [] ∨
          ∃ ch rest2, rest = ch :: rest2 ∧ (is_ascii_ws ch = true ∨ ch.isAlpha = true)) →
        parse_f64 num = some v →
        parse_words_aux opts (c :: num ++ rest)
          = (parse_words_aux opts rest).map (fun ws => ⟨c.toUpper, v⟩ :: ws))
    ∧ (∀ (opts : ParseOptions) (c : Char) (rest : List Char), c.isAlpha = false →
        parse_words_aux opts (c :: rest) = parse_words_aux opts rest)
    ∧ (∀ (opts : ParseOptions) (c w : Char) (rest : List Char),
        c.isAlpha = true → is_ascii_ws w = true →
        parse_words_aux opts (c :: w :: rest)
          = if opts.should_ignore_missing c.toUpper
              || (opts.ignore_unknown_words && !is_known_letter c.toUpper) then
              parse_words_aux opts (w :: rest)
            else .error (.malformedLine c.toUpper)) := by
  refine ⟨?_, ?_, ?_, ?_, ?_⟩
  · intro a b cont hpa hsa hrb
    unfold strip_comments
    have hsplit : a ++ '(' :: b ++ ')' :: cont = a ++ ('(' :: (b ++ ')' :: cont)) := by
      simp
    rw [hsplit, strip_aux_plain a ('(' :: (b ++ ')' :: cont)) hpa hsa]
    have h2 : strip_comments_aux ('(' :: (b ++ ')' :: cont)) false
        = strip_comments_aux (b ++ ')' :: cont) true := by
      simp [strip_comments_aux]
    rw [h2, strip_aux_paren b cont hrb]
  · intro a b hpa hsa
    unfold strip_comments
    rw [strip_aux_plain a (';' :: b) hpa hsa]
    simp [strip_comments_aux]
  · intro opts c num rest v halpha hnum hne hrest hval
    have hws := not_ws_of_isAlpha halpha
    have htn : takeNum (num ++ rest) = (num, rest) := takeNum_append num rest hnum hrest
    have htrim : trim num = num :=
      trim_no_ws num (fun ch hch => (hnum ch hch).1)
    rw [List.cons_append, parse_words_aux]
    simp only [hws, Bool.false_eq_true, if_false, halpha, if_true, htn, htrim,
      if_neg hne, hval]
  · intro opts c rest hnalpha
    rw [parse_words_aux]
    by_cases hws : is_ascii_ws c = true
    · simp only [hws, if_true]
    · simp only [hws, if_false, hnalpha, Bool.false_eq_true]
  · intro opts c w rest halpha hws
    have htn : takeNum (w :: rest) = ([], w :: rest) := by
      unfold takeNum
      rw [hws]
      simp
    have h := parse_words_step_missing opts c (w :: rest) halpha (by rw [htn]; rfl)

    rw [h, htn]

/-- Witness for C7: a semicolon comment is stripped (`G1;x` keeps `G1`),
and `x1` lexes to the single uppercased word `X = 1`. -/
theorem lexer_pipeline_witness :
    strip_comments (['G', '1'] ++ ';' :: ['x']) = ['G', '1'] ∧
    parse_words_aux ParseOptions.default ('x' :: ['1'] ++ [])
      = (parse_words_aux ParseOptions.default []).map
          (fun ws => ⟨'x'.toUpper, 1⟩ :: ws) := by
  constructor
  · exact lexer_pipeline.2.1 ['G', '1'] ['x'] (by decide) (by decide)
  · refine lexer_pipeline.2.2.1 ParseOptions.default 'x' ['1'] [] 1
      (by decide) (by decide) (by decide) (Or.inl rfl) ?_
    simp [parse_f64, digitsVal]



/-! ## Structural lemmas about parse_line -/

/-- Folding `Bounds3.include` over both endpoints of a segment run, in
emission order. -/
noncomputable def include_segs (b : Bounds3) (segs : List LineSegment) : Bounds3 :=
  segs.foldl (fun b s => (b.include s.start).include s.stop) b

/-- Both endpoints of every segment, in emission order. -/
def seg_endpoints (segs : List LineSegment) : List Vec3 :=
  segs.flatMap (fun s => [s.start, s.stop])

/-- An arc move that succeeds only ever appends segments, folds the bounds
over the new segments, and leaves the per-line index and options alone. -/
theorem add_arc_move_ok_structure (p p' : Parser) (x y z i j k r : Option ℝ) (cw : Bool)
    (h : add_arc_move p x y z i j k r cw = .ok p') :
    ∃ new, p'.segments = p.segments ++ new ∧
      p'.bounds = include_segs p.bounds new ∧
      p'.line_segment_ends = p.line_segment_ends ∧
      p'.options = p.options := by
  unfold add_arc_move at h
  by_cases he : move_target p.state x y z = p.state.pos
  · rw [if_pos he] at h
    have := Except.ok.inj h
    subst this
    exact ⟨[], by simp [include_segs]⟩
  · rw [if_neg he] at h
    cases harc : arc_center p.state.pos (move_target p.state x y z) i j k r
        p.state.plane cw with
    | error e =>
      rw [harc] at h
      exact absurd h (by simp)
    | ok center =>
      rw [harc] at h
      simp only at h
      by_cases hsegs : arc_to_segments p.state.pos (move_target p.state x y z) center cw
          p.state.plane = []
      · rw [if_pos hsegs] at h
        have := Except.ok.inj h
        subst this
        exact ⟨[], by simp [include_segs]⟩
      · rw [if_neg hsegs] at h
        have := Except.ok.inj h
        subst this
        exact ⟨_, rfl, rfl, rfl, rfl⟩

/-- Master structural lemma: a successful `parse_line` appends some (possibly
empty) run of segments, appends exactly one per-line index entry equal to the
new total segment count, folds the bounds over the new segments, and leaves
the options alone. -/
theorem parse_line_ok_structure (p p' : Parser) (line : List Char)
    (h : parse_line p line = .ok p') :
    ∃ new : List LineSegment,
      p'.segments = p.segments ++ new ∧
      p'.line_segment_ends = p.line_segment_ends ++ [p'.segments.length] ∧
      p'.bounds = include_segs p.bounds new ∧
      p'.options = p.options := by
  unfold parse_line at h
  by_cases hcl : trim (strip_comments line) = []
  · rw [if_pos hcl] at h
    have := Except.ok.inj h
    subst this
    exact ⟨[], by simp, rfl, by simp [include_segs], rfl⟩
  · rw [if_neg hcl] at h
    cases hw : parse_words (trim (strip_comments line))
        { p with stats := { p.stats with line_count := p.stats.line_count + 1 } }.options with
    | error e =>
      rw [hw] at h
      exact absurd h (by simp)
    | ok words =>
      rw [hw] at h
      simp only at h
      by_cases hwe : words = []
      · rw [if_pos hwe] at h
        have := Except.ok.inj h
        subst this
        exact ⟨[], by simp, rfl, by simp [include_segs], rfl⟩
      · rw [if_neg hwe] at h
        set p1 := { p with stats := { p.stats with line_count := p.stats.line_count + 1 } }
          with hp1
        set acc := words.foldl process_word (LineAcc.init p1.state) with hacc
        set p2 := { p1 with state := acc.state } with hp2
        have hfields : p2.segments = p.segments ∧ p2.line_segment_ends = p.line_segment_ends
            ∧ p2.bounds = p.bounds ∧ p2.options = p.options := ⟨rfl, rfl, rfl, rfl⟩
        cases hm : (if acc.motion_override.isSome = true then acc.motion_override
          else
            if acc.x.isSome || acc.y.isSome || acc.z.isSome
                || acc.i.isSome || acc.j.isSome || acc.k.isSome then
              some acc.state.motion_mode
            else none) with
        | none =>
          rw [hm] at h
          simp only at h
          have := Except.ok.inj h
          subst this
          exact ⟨[], by simp, rfl, by simp [include_segs], rfl⟩
        | some mode =>
          rw [hm] at h
          cases mode with
          | Rapid =>
            simp only at h
            have := Except.ok.inj h
            subst this
            by_cases hmv : move_target p2.state acc.x acc.y acc.z = p2.state.pos
            · rw [add_linear_move_noop p2 _ _ _ _ hmv]
              exact ⟨[], by simp, rfl, by simp [include_segs], rfl⟩
            · rw [add_linear_move_spec p2 _ _ _ _ hmv]
              exact ⟨[⟨p2.state.pos, move_target p2.state acc.x acc.y acc.z, .Rapid⟩],
                rfl, rfl, by simp [include_segs], rfl⟩
          | Feed =>
            simp only at h
            have := Except.ok.inj h
            subst this
            by_cases hmv : move_target p2.state acc.x acc.y acc.z = p2.state.pos
            · rw [add_linear_move_noop p2 _ _ _ _ hmv]
              exact ⟨[], by simp, rfl, by simp [include_segs], rfl⟩
            · rw [add_linear_move_spec p2 _ _ _ _ hmv]
              exact ⟨[⟨p2.state.pos, move_target p2.state acc.x acc.y acc.z, .Feed⟩],
                rfl, rfl, by simp [include_segs], rfl⟩
          | ArcCW =>
            simp only at h
            cases ha : add_arc_move p2 acc.x acc.y acc.z acc.i acc.j acc.k acc.r true with
            | error e => rw [ha] at h; exact absurd h (by simp)
            | ok p3 =>
              rw [ha] at h
              simp only at h
              have := Except.ok.inj h
              subst this
              obtain ⟨new, hseg, hb, hends, hopts⟩ :=
                add_arc_move_ok_structure p2 p3 _ _ _ _ _ _ _ _ ha
              exact ⟨new, hseg, by rw [hends], hb, hopts⟩
          | ArcCCW =>
            simp only at h
            cases ha : add_arc_move p2 acc.x acc.y acc.z acc.i acc.j acc.k acc.r false with
            | error e => rw [ha] at h; exact absurd h (by simp)
            | ok p3 =>
              rw [ha] at h
              simp only at h
              have := Except.ok.inj h
              subst this
              obtain ⟨new, hseg, hb, hends, hopts⟩ :=
                add_arc_move_ok_structure p2 p3 _ _ _ _ _ _ _ _ ha
              exact ⟨new, hseg, by rw [hends], hb, hopts⟩



/-! ## C5: the per-line segment index -/

/-- Run-level invariant for the per-line index: every processed line appends
exactly one entry, the entries never decrease, and a non-empty index ends
with the current segment count. -/
theorem run_lines_ends (lines : List (List Char)) :
    ∀ p p' : Parser, run_lines p lines = .ok p' →
      (List.Chain' (· ≤ ·) p.line_segment_ends ∧
        (∀ e ∈ p.line_segment_ends, e ≤ p.segments.length) ∧
        (p.line_segment_ends = [] ∨
          p.line_segment_ends.getLast? = some p.segments.length)) →
      p'.line_segment_ends.length = p.line_segment_ends.length + lines.length ∧
      List.Chain' (· ≤ ·) p'.line_segment_ends ∧
      (∀ e ∈ p'.line_segment_ends, e ≤ p'.segments.length) ∧
      (p'.line_segment_ends = [] ∨
        p'.line_segment_ends.getLast? = some p'.segments.length) := by
  induction lines with
  | nil =>
    intro p p' h hinv
    unfold run_lines at h
    have := Except.ok.inj h
    subst this
    exact ⟨by simp, hinv.1, hinv.2.1, hinv.2.2⟩
  | cons l rest ih =>
    intro p p' h hinv
    unfold run_lines at h
    cases hl : parse_line p l with
    | error e => rw [hl] at h; exact absurd h (by simp)
    | ok p1 =>
      rw [hl] at h
      simp only at h
      obtain ⟨new, hseg, hends, hb, hopts⟩ := parse_line_ok_structure p p1 l hl
      have hgrow : p.segments.length ≤ p1.segments.length := by
        rw [hseg]; simp
      have hinv1 : List.Chain' (· ≤ ·) p1.line_segment_ends ∧
          (∀ e ∈ p1.line_segment_ends, e ≤ p1.segments.length) ∧
          (p1.line_segment_ends = [] ∨
            p1.line_segment_ends.getLast? = some p1.segments.length) := by
        refine ⟨?_, ?_, ?_⟩
        · rw [hends]
          rw [List.chain'_append]
          refine ⟨hinv.1, List.chain'_singleton _, ?_⟩
          intro x hx y hy
          simp only [List.head?_cons, Option.mem_def, Option.some.injEq] at hy
          subst hy
          have hxmem : x ∈ p.line_segment_ends := by
            rcases List.mem_getLast?_eq_getLast hx with ⟨hne, heq⟩
            rw [heq]
            exact List.getLast_mem hne
          exact le_trans (hinv.2.1 x hxmem) hgrow
        · intro e he
          rw [hends] at he
          rcases List.mem_append.mp he with h1 | h1
          · exact le_trans (hinv.2.1 e h1) hgrow
          · simp only [List.mem_singleton] at h1
            subst h1
            exact le_refl _
        · right
          rw [hends]
          exact List.getLast?_concat _
      obtain ⟨hlen, rest1, rest2, rest3⟩ := ih p1 p' h hinv1
      refine ⟨?_, rest1, rest2, rest3⟩
      rw [hlen, hends]
      simp
      omega

/-- C5: for every successfully parsed input, `line_segment_ends` has exactly
one entry per input line, its values are monotonically non-decreasing, and
its final entry (when the input has at least one line) equals the segment
count reported in the stats. -/
theorem line_segment_ends_spec (lines : List (List Char)) (opts : ParseOptions)
    (tp : Toolpath) (h : parse_lines lines opts = .ok tp) :
    tp.line_segment_ends.length = lines.length ∧
    List.Chain' (· ≤ ·) tp.line_segment_ends ∧
    (∀ n, tp.line_segment_ends.getLast? = some n → n = tp.stats.segment_count) := by
  unfold parse_lines at h
  cases hr : run_lines (Parser.new opts) lines with
  | error e => rw [hr] at h; exact Except.noConfusion h
  | ok pf =>
    rw [hr] at h
    have h2 : Except.ok pf.finish = Except.ok tp := h
    have : pf.finish = tp := Except.ok.inj h2
    subst this
    obtain ⟨hlen, hchain, hle, hlast⟩ := run_lines_ends lines (Parser.new opts) pf hr
      ⟨by simp [Parser.new], by simp [Parser.new], Or.inl rfl⟩
    refine ⟨?_, hchain, ?_⟩
    · simpa [Parser.new] using hlen
    · intro n hn
      rcases hlast with he | hsome
      · rw [show pf.finish.line_segment_ends = pf.line_segment_ends from rfl, he] at hn
        simp at hn
      · rw [show pf.finish.line_segment_ends = pf.line_segment_ends from rfl, hsome] at hn
        have := Option.some.inj hn
        subst this
        rfl

/-- Witness for C5: a single blank line parses to a toolpath with exactly
one index entry, `[0]`, matching the zero segment count. -/
theorem line_segment_ends_spec_witness :
    (Toolpath.mk [] Bounds3.new ⟨1, 0, 0, 0, 0⟩ [0]).line_segment_ends.length = 1 ∧
    List.Chain' (· ≤ ·) (Toolpath.mk [] Bounds3.new ⟨1, 0, 0, 0, 0⟩ [0]).line_segment_ends ∧
    (∀ n, (Toolpath.mk [] Bounds3.new ⟨1, 0, 0, 0, 0⟩ [0]).line_segment_ends.getLast?
        = some n →
      n = (Toolpath.mk [] Bounds3.new ⟨1, 0, 0, 0, 0⟩ [0]).stats.segment_count) := by
  refine line_segment_ends_spec [[]] ParseOptions.default _ ?_
  simp [parse_lines, run_lines, parse_line, strip_comments, strip_comments_aux, trim,
    Parser.new, Parser.finish, ParserState.new, ToolpathStats.default, Bounds3.new,
    Except.map]



/-! ## C9: bounds are the exact per-axis min/max over all emitted endpoints -/

/-- Folding `Bounds3.include` over a point list. -/
noncomputable def include_pts (b : Bounds3) (pts : List Vec3) : Bounds3 :=
  pts.foldl Bounds3.include b

/-- A point lies inside the per-axis ranges of a bounds value. -/
def mem_bounds (b : Bounds3) (q : Vec3) : Prop :=
  b.min.x ≤ q.x ∧ q.x ≤ b.max.x ∧ b.min.y ≤ q.y ∧ q.y ≤ b.max.y ∧
  b.min.z ≤ q.z ∧ q.z ≤ b.max.z

theorem seg_endpoints_cons (s : LineSegment) (tl : List LineSegment) :
    seg_endpoints (s :: tl) = s.start :: s.stop :: seg_endpoints tl := by
  simp [seg_endpoints]

theorem include_segs_eq_pts (segs : List LineSegment) :
    ∀ b, include_segs b segs = include_pts b (seg_endpoints segs) := by
  induction segs with
  | nil => intro b; rfl
  | cons s tl ih =>
    intro b
    rw [show include_segs b (s :: tl)
        = include_segs ((b.include s.start).include s.stop) tl from rfl,
      seg_endpoints_cons,
      show include_pts b (s.start :: s.stop :: seg_endpoints tl)
        = include_pts ((b.include s.start).include s.stop) (seg_endpoints tl) from rfl]
    exact ih _

/-- Including a point into an initialized bounds takes componentwise
min/max. -/
theorem include_initialized (b : Bounds3) (hb : b.initialized = true) (q : Vec3) :
    b.include q =
      ⟨⟨Min.min b.min.x q.x, Min.min b.min.y q.y, Min.min b.min.z q.z⟩,
       ⟨Max.max b.max.x q.x, Max.max b.max.y q.y, Max.max b.max.z q.z⟩, true⟩ := by
  unfold Bounds3.include
  rw [hb]
  simp

/-- Folding points into an initialized bounds folds min/max per axis. -/
theorem include_pts_spec (pts : List Vec3) :
    ∀ b : Bounds3, b.initialized = true →
      include_pts b pts =
        ⟨⟨(pts.map Vec3.x).foldl Min.min b.min.x,
          (pts.map Vec3.y).foldl Min.min b.min.y,
          (pts.map Vec3.z).foldl Min.min b.min.z⟩,
         ⟨(pts.map Vec3.x).foldl Max.max b.max.x,
          (pts.map Vec3.y).foldl Max.max b.max.y,
          (pts.map Vec3.z).foldl Max.max b.max.z⟩, true⟩ := by
  induction pts with
  | nil =>
    intro b hb
    cases b with
    | mk bmin bmax binit =>
      cases bmin; cases bmax
      simp only [include_pts, List.foldl_nil, List.map_nil] at *
      subst hb
      rfl
  | cons q tl ih =>
    intro b hb
    rw [show include_pts b (q :: tl) = include_pts (b.include q) tl from rfl,
      include_initialized b hb q, ih _ rfl]
    simp

/-- `foldl Min.min` is a lower bound on the seed and every element, and is
attained by one of them. -/
theorem foldl_min_facts (l : List ℝ) :
    ∀ a : ℝ, ((∀ r ∈ l, l.foldl Min.min a ≤ r) ∧ l.foldl Min.min a ≤ a) ∧
      (l.foldl Min.min a = a ∨ l.foldl Min.min a ∈ l) := by
  induction l with
  | nil => intro a; exact ⟨⟨by simp, le_refl a⟩, Or.inl rfl⟩
  | cons r tl ih =>
    intro a
    simp only [List.foldl_cons]
    obtain ⟨⟨h1, h2⟩, h3⟩ := ih (Min.min a r)
    refine ⟨⟨?_, le_trans h2 (min_le_left a r)⟩, ?_⟩
    · intro x hx
      rcases List.mem_cons.mp hx with hh | hh
      · subst hh; exact le_trans h2 (min_le_right a x)
      · exact h1 x hh
    · rcases h3 with hh | hh
      · rcases min_choice a r with hm | hm
        · exact Or.inl (by rw [hh, hm])
        · exact Or.inr (by rw [hh, hm]; simp)
      · exact Or.inr (by simp [hh])

/-- `foldl Max.max` is an upper bound on the seed and every element, and is
attained by one of them. -/
theorem foldl_max_facts (l : List ℝ) :
    ∀ a : ℝ, ((∀ r ∈ l, r ≤ l.foldl Max.max a) ∧ a ≤ l.foldl Max.max a) ∧
      (l.foldl Max.max a = a ∨ l.foldl Max.max a ∈ l) := by
  induction l with
  | nil => intro a; exact ⟨⟨by simp, le_refl a⟩, Or.inl rfl⟩
  | cons r tl ih =>
    intro a
    simp only [List.foldl_cons]
    obtain ⟨⟨h1, h2⟩, h3⟩ := ih (Max.max a r)
    refine ⟨⟨?_, le_trans (le_max_left a r) h2⟩, ?_⟩
    · intro x hx
      rcases List.mem_cons.mp hx with hh | hh
      · subst hh; exact le_trans (le_max_right a x) h2
      · exact h1 x hh
    · rcases h3 with hh | hh
      · rcases max_choice a r with hm | hm
        · exact Or.inl (by rw [hh, hm])
        · exact Or.inr (by rw [hh, hm]; simp)
      · exact Or.inr (by simp [hh])

/-- The bounds of a run are always the fold of `include` over all segments
emitted so far. -/
theorem run_lines_bounds (lines : List (List Char)) :
    ∀ p p' : Parser, run_lines p lines = .ok p' →
      p.bounds = include_segs Bounds3.new p.segments →
      p'.bounds = include_segs Bounds3.new p'.segments := by
  induction lines with
  | nil =>
    intro p p' h hinv
    unfold run_lines at h
    have := Except.ok.inj h
    subst this
    exact hinv
  | cons l rest ih =>
    intro p p' h hinv
    unfold run_lines at h
    cases hl : parse_line p l with
    | error e => rw [hl] at h; exact Except.noConfusion h
    | ok p1 =>
      rw [hl] at h
      simp only at h
      obtain ⟨new, hseg, hends, hb, hopts⟩ := parse_line_ok_structure p p1 l hl
      refine ih p1 p' h ?_
      rw [hb, hseg, hinv]
      unfold include_segs
      rw [List.foldl_append]

/-- C9: after a successful parse the bounds are initialized exactly when at
least one segment was emitted, they contain every endpoint of every emitted
segment, and each of the six per-axis extrema is attained by some endpoint —
i.e. they are the exact per-axis min/max over all endpoints. -/
theorem bounds_exact (lines : List (List Char)) (opts : ParseOptions)
    (tp : Toolpath) (h : parse_lines lines opts = .ok tp) :
    (tp.bounds.initialized = true ↔ tp.segments ≠ []) ∧
    (∀ q ∈ seg_endpoints tp.segments, mem_bounds tp.bounds q) ∧
    (tp.segments ≠ [] →
      (∃ q ∈ seg_endpoints tp.segments, tp.bounds.min.x = q.x) ∧
      (∃ q ∈ seg_endpoints tp.segments, tp.bounds.min.y = q.y) ∧
      (∃ q ∈ seg_endpoints tp.segments, tp.bounds.min.z = q.z) ∧
      (∃ q ∈ seg_endpoints tp.segments, tp.bounds.max.x = q.x) ∧
      (∃ q ∈ seg_endpoints tp.segments, tp.bounds.max.y = q.y) ∧
      (∃ q ∈ seg_endpoints tp.segments, tp.bounds.max.z = q.z)) := by
  unfold parse_lines at h
  cases hr : run_lines (Parser.new opts) lines with
  | error e => rw [hr] at h; exact Except.noConfusion h
  | ok pf =>
    rw [hr] at h
    have h2 : Except.ok pf.finish = Except.ok tp := h
    have := Except.ok.inj h2
    subst this
    have hbseg : pf.finish.bounds = include_segs Bounds3.new pf.finish.segments :=
      run_lines_bounds lines (Parser.new opts) pf hr (by simp [Parser.new, include_segs, Bounds3.new])
    cases hsegs : pf.finish.segments with
    | nil =>
      rw [hbseg, hsegs]
      refine ⟨by simp [include_segs, Bounds3.new], ?_, ?_⟩
      · intro q hq
        simp [seg_endpoints] at hq
      · intro hne
        exact absurd rfl hne
    | cons s tl =>
      rw [hbseg, hsegs]
      rw [include_segs_eq_pts, seg_endpoints_cons]
      rw [show include_pts Bounds3.new (s.start :: s.stop :: seg_endpoints tl)
          = include_pts ⟨s.start, s.start, true⟩ (s.stop :: seg_endpoints tl) from rfl]
      rw [include_pts_spec _ _ rfl]
      set pts := s.stop :: seg_endpoints tl with hpts
      refine ⟨by simp, ?_, ?_⟩
      · intro q hq
        rcases List.mem_cons.mp hq with hh | hh
        · subst hh
          refine ⟨((foldl_min_facts _ _).1).2, ((foldl_max_facts _ _).1).2,
            ((foldl_min_facts _ _).1).2, ((foldl_max_facts _ _).1).2,
            ((foldl_min_facts _ _).1).2, ((foldl_max_facts _ _).1).2⟩
        · refine ⟨((foldl_min_facts _ _).1).1 _ (List.mem_map_of_mem _ hh),
            ((foldl_max_facts _ _).1).1 _ (List.mem_map_of_mem _ hh),
            ((foldl_min_facts _ _).1).1 _ (List.mem_map_of_mem _ hh),
            ((foldl_max_facts _ _).1).1 _ (List.mem_map_of_mem _ hh),
            ((foldl_min_facts _ _).1).1 _ (List.mem_map_of_mem _ hh),
            ((foldl_max_facts _ _).1).1 _ (List.mem_map_of_mem _ hh)⟩
      · intro hne
        have attain_min : ∀ f : Vec3 → ℝ,
            ∃ q ∈ s.start :: pts, (pts.map f).foldl Min.min (f s.start) = f q := by
          intro f
          rcases (foldl_min_facts (pts.map f) (f s.start)).2 with hh | hh
          · exact ⟨s.start, by simp, hh⟩
          · obtain ⟨q, hq, hfq⟩ := List.mem_map.mp hh
            exact ⟨q, by simp [hq], hfq.symm⟩
        have attain_max : ∀ f : Vec3 → ℝ,
            ∃ q ∈ s.start :: pts, (pts.map f).foldl Max.max (f s.start) = f q := by
          intro f
          rcases (foldl_max_facts (pts.map f) (f s.start)).2 with hh | hh
          · exact ⟨s.start, by simp, hh⟩
          · obtain ⟨q, hq, hfq⟩ := List.mem_map.mp hh
            exact ⟨q, by simp [hq], hfq.symm⟩
        exact ⟨attain_min Vec3.x, attain_min Vec3.y, attain_min Vec3.z,
          attain_max Vec3.x, attain_max Vec3.y, attain_max Vec3.z⟩



/-- The single line `X1` parses to one rapid segment from the origin to
`(1,0,0)` with initialized bounds spanning exactly those two points. -/
theorem parse_x1 :
    parse_lines [['X','1']] ParseOptions.default
    = Except.ok (Toolpath.mk [⟨⟨0,0,0⟩, ⟨1,0,0⟩, .Rapid⟩] ⟨⟨0,0,0⟩, ⟨1,0,0⟩, true⟩ ⟨1, 1, 1, 0, 0⟩ [1]) := by
  have hw : parse_words ['X','1'] ParseOptions.default = .ok [⟨'X',1⟩] := by
    simp +decide [parse_words, parse_words_aux, is_ascii_ws, takeNum, trim, parse_f64,
      parse_f64.parse_exp, digitsVal, ParseOptions.default,
      ParseOptions.should_ignore_missing, Except.map]
  have htrim : trim (strip_comments ['X','1']) = ['X','1'] := by decide
  unfold parse_lines run_lines
  norm_num +decide [parse_line, htrim, hw, Parser.new, ParserState.new,
    ToolpathStats.default, List.foldl_cons, List.foldl_nil,
    process_word, LineAcc.init, add_linear_move, move_target, apply_axis,
    Vec3.mk.injEq, Bounds3.new, Bounds3.include, Parser.finish, run_lines,
    min_def, max_def, Except.map]

/-- Witness for C9: the one-segment program `X1` has initialized bounds that
contain both endpoints and attain each extremum at an endpoint. -/
theorem bounds_exact_witness :
    ((Toolpath.mk [⟨⟨0,0,0⟩, ⟨1,0,0⟩, .Rapid⟩] ⟨⟨0,0,0⟩, ⟨1,0,0⟩, true⟩ ⟨1, 1, 1, 0, 0⟩ [1]).bounds.initialized = true ↔ (Toolpath.mk [⟨⟨0,0,0⟩, ⟨1,0,0⟩, .Rapid⟩] ⟨⟨0,0,0⟩, ⟨1,0,0⟩, true⟩ ⟨1, 1, 1, 0, 0⟩ [1]).segments ≠ []) ∧
    (∀ q ∈ seg_endpoints (Toolpath.mk [⟨⟨0,0,0⟩, ⟨1,0,0⟩, .Rapid⟩] ⟨⟨0,0,0⟩, ⟨1,0,0⟩, true⟩ ⟨1, 1, 1, 0, 0⟩ [1]).segments, mem_bounds (Toolpath.mk [⟨⟨0,0,0⟩, ⟨1,0,0⟩, .Rapid⟩] ⟨⟨0,0,0⟩, ⟨1,0,0⟩, true⟩ ⟨1, 1, 1, 0, 0⟩ [1]).bounds q) ∧
    ((Toolpath.mk [⟨⟨0,0,0⟩, ⟨1,0,0⟩, .Rapid⟩] ⟨⟨0,0,0⟩, ⟨1,0,0⟩, true⟩ ⟨1, 1, 1, 0, 0⟩ [1]).segments ≠ [] →
      (∃ q ∈ seg_endpoints (Toolpath.mk [⟨⟨0,0,0⟩, ⟨1,0,0⟩, .Rapid⟩] ⟨⟨0,0,0⟩, ⟨1,0,0⟩, true⟩ ⟨1, 1, 1, 0, 0⟩ [1]).segments, (Toolpath.mk [⟨⟨0,0,0⟩, ⟨1,0,0⟩, .Rapid⟩] ⟨⟨0,0,0⟩, ⟨1,0,0⟩, true⟩ ⟨1, 1, 1, 0, 0⟩ [1]).bounds.min.x = q.x) ∧
      (∃ q ∈ seg_endpoints (Toolpath.mk [⟨⟨0,0,0⟩, ⟨1,0,0⟩, .Rapid⟩] ⟨⟨0,0,0⟩, ⟨1,0,0⟩, true⟩ ⟨1, 1, 1, 0, 0⟩ [1]).segments, (Toolpath.mk [⟨⟨0,0,0⟩, ⟨1,0,0⟩, .Rapid⟩] ⟨⟨0,0,0⟩, ⟨1,0,0⟩, true⟩ ⟨1, 1, 1, 0, 0⟩ [1]).bounds.min.y = q.y) ∧
      (∃ q ∈ seg_endpoints (Toolpath.mk [⟨⟨0,0,0⟩, ⟨1,0,0⟩, .Rapid⟩] ⟨⟨0,0,0⟩, ⟨1,0,0⟩, true⟩ ⟨1, 1, 1, 0, 0⟩ [1]).segments, (Toolpath.mk [⟨⟨0,0,0⟩, ⟨1,0,0⟩, .Rapid⟩] ⟨⟨0,0,0⟩, ⟨1,0,0⟩, true⟩ ⟨1, 1, 1, 0, 0⟩ [1]).bounds.min.z = q.z) ∧
      (∃ q ∈ seg_endpoints (Toolpath.mk [⟨⟨0,0,0⟩, ⟨1,0,0⟩, .Rapid⟩] ⟨⟨0,0,0⟩, ⟨1,0,0⟩, true⟩ ⟨1, 1, 1, 0, 0⟩ [1]).segments, (Toolpath.mk [⟨⟨0,0,0⟩, ⟨1,0,0⟩, .Rapid⟩] ⟨⟨0,0,0⟩, ⟨1,0,0⟩, true⟩ ⟨1, 1, 1, 0, 0⟩ [1]).bounds.max.x = q.x) ∧
      (∃ q ∈ seg_endpoints (Toolpath.mk [⟨⟨0,0,0⟩, ⟨1,0,0⟩, .Rapid⟩] ⟨⟨0,0,0⟩, ⟨1,0,0⟩, true⟩ ⟨1, 1, 1, 0, 0⟩ [1]).segments, (Toolpath.mk [⟨⟨0,0,0⟩, ⟨1,0,0⟩, .Rapid⟩] ⟨⟨0,0,0⟩, ⟨1,0,0⟩, true⟩ ⟨1, 1, 1, 0, 0⟩ [1]).bounds.max.y = q.y) ∧
      (∃ q ∈ seg_endpoints (Toolpath.mk [⟨⟨0,0,0⟩, ⟨1,0,0⟩, .Rapid⟩] ⟨⟨0,0,0⟩, ⟨1,0,0⟩, true⟩ ⟨1, 1, 1, 0, 0⟩ [1]).segments, (Toolpath.mk [⟨⟨0,0,0⟩, ⟨1,0,0⟩, .Rapid⟩] ⟨⟨0,0,0⟩, ⟨1,0,0⟩, true⟩ ⟨1, 1, 1, 0, 0⟩ [1]).bounds.max.z = q.z)) :=
  bounds_exact [['X','1']] ParseOptions.default (Toolpath.mk [⟨⟨0,0,0⟩, ⟨1,0,0⟩, .Rapid⟩] ⟨⟨0,0,0⟩, ⟨1,0,0⟩, true⟩ ⟨1, 1, 1, 0, 0⟩ [1]) parse_x1

/-! ## Arc geometry helper lemmas -/

/-- Polar inversion for `atan2`: scaling the unit direction at angle
`atan2 y x` by the magnitude recovers the point. -/
theorem atan2_cos_sin (y x r : ℝ) (hr : r = Real.sqrt (x ^ 2 + y ^ 2))
    (h : ¬ (x = 0 ∧ y = 0)) :
    r * Real.cos (atan2 y x) = x ∧ r * Real.sin (atan2 y x) = y := by
  have hz : (⟨x, y⟩ : ℂ) ≠ 0 := by
    intro hzz
    apply h
    constructor
    · have := congrArg Complex.re hzz; simpa using this
    · have := congrArg Complex.im hzz; simpa using this
  have habs : Complex.abs ⟨x, y⟩ = r := by
    rw [Complex.abs_apply, Complex.normSq_mk, hr]
    congr 1
    ring
  have hr0 : r ≠ 0 := by
    rw [← habs]
    exact Complex.abs.ne_zero hz
  constructor
  · rw [atan2, Complex.cos_arg hz, habs]
    show r * (x / r) = x
    rw [mul_comm, div_mul_cancel₀ _ hr0]
  · rw [atan2, Complex.sin_arg, habs]
    show r * (y / r) = y
    rw [mul_comm, div_mul_cancel₀ _ hr0]

/-- The direction-corrected sweep differs from the raw angle difference by a
whole turn at most. -/
theorem sweep_for_center_eq (sx sy ex ey cx cy : ℝ) (cw : Bool) :
    ∃ c : ℝ, (c = 0 ∨ c = 2 * Real.pi ∨ c = -(2 * Real.pi)) ∧
      sweep_for_center sx sy ex ey cx cy cw
        = atan2 (ey - cy) (ex - cx) - atan2 (sy - cy) (sx - cx) + c := by
  unfold sweep_for_center
  cases cw with
  | true =>
    by_cases hs : 0 ≤ atan2 (ey - cy) (ex - cx) - atan2 (sy - cy) (sx - cx)
    · refine ⟨-(2 * Real.pi), Or.inr (Or.inr rfl), ?_⟩
      simp only [if_pos hs, if_true]
      try ring
    · refine ⟨0, Or.inl rfl, ?_⟩
      simp only [if_neg hs, if_true]
      try ring
  | false =>
    by_cases hs : atan2 (ey - cy) (ex - cx) - atan2 (sy - cy) (sx - cx) ≤ 0
    · refine ⟨2 * Real.pi, Or.inr (Or.inl rfl), ?_⟩
      simp only [if_pos hs, Bool.false_eq_true, if_false]
      try ring
    · refine ⟨0, Or.inl rfl, ?_⟩
      simp only [if_neg hs, Bool.false_eq_true, if_false]
      try ring

/-- Walking the full sweep from the start angle lands on the end angle, up
to a whole turn, so its cosine and sine match the end angle. -/
theorem angle_plus_sweep (sx sy ex ey cx cy : ℝ) (cw : Bool) :
    Real.cos (atan2 (sy - cy) (sx - cx) + sweep_for_center sx sy ex ey cx cy cw)
      = Real.cos (atan2 (ey - cy) (ex - cx)) ∧
    Real.sin (atan2 (sy - cy) (sx - cx) + sweep_for_center sx sy ex ey cx cy cw)
      = Real.sin (atan2 (ey - cy) (ex - cx)) := by
  obtain ⟨c, hc, hsw⟩ := sweep_for_center_eq sx sy ex ey cx cy cw
  rw [hsw]
  rcases hc with hc | hc | hc <;> subst hc
  · constructor
    · rw [show atan2 (sy - cy) (sx - cx)
          + (atan2 (ey - cy) (ex - cx) - atan2 (sy - cy) (sx - cx) + 0)
          = atan2 (ey - cy) (ex - cx) by ring]
    · rw [show atan2 (sy - cy) (sx - cx)
          + (atan2 (ey - cy) (ex - cx) - atan2 (sy - cy) (sx - cx) + 0)
          = atan2 (ey - cy) (ex - cx) by ring]
  · constructor
    · rw [show atan2 (sy - cy) (sx - cx)
          + (atan2 (ey - cy) (ex - cx) - atan2 (sy - cy) (sx - cx) + 2 * Real.pi)
          = atan2 (ey - cy) (ex - cx) + 2 * Real.pi by ring, Real.cos_add_two_pi]
    · rw [show atan2 (sy - cy) (sx - cx)
          + (atan2 (ey - cy) (ex - cx) - atan2 (sy - cy) (sx - cx) + 2 * Real.pi)
          = atan2 (ey - cy) (ex - cx) + 2 * Real.pi by ring, Real.sin_add_two_pi]
  · constructor
    · rw [show atan2 (sy - cy) (sx - cx)
          + (atan2 (ey - cy) (ex - cx) - atan2 (sy - cy) (sx - cx) + -(2 * Real.pi))
          = atan2 (ey - cy) (ex - cx) - 2 * Real.pi by ring, Real.cos_sub_two_pi]
    · rw [show atan2 (sy - cy) (sx - cx)
          + (atan2 (ey - cy) (ex - cx) - atan2 (sy - cy) (sx - cx) + -(2 * Real.pi))
          = atan2 (ey - cy) (ex - cx) - 2 * Real.pi by ring, Real.sin_sub_two_pi]



/-- Walking the corrected sweep from the start angle lands exactly on any
point at the same distance from the center, in particular the end point. -/
theorem arc_land (sx sy ex ey cx cy r : ℝ) (cw : Bool)
    (hr : r = Real.sqrt ((ex - cx) ^ 2 + (ey - cy) ^ 2)) (hpos : 0 < r) :
    cx + r * Real.cos (atan2 (sy - cy) (sx - cx)
        + sweep_for_center sx sy ex ey cx cy cw) = ex ∧
    cy + r * Real.sin (atan2 (sy - cy) (sx - cx)
        + sweep_for_center sx sy ex ey cx cy cw) = ey := by
  have hne : ¬ (ex - cx = 0 ∧ ey - cy = 0) := by
    rintro ⟨h1, h2⟩
    rw [h1, h2] at hr
    simp at hr
    exact absurd hr (ne_of_gt hpos)
  obtain ⟨hcos, hsin⟩ := atan2_cos_sin (ey - cy) (ex - cx) r hr hne
  obtain ⟨hc2, hs2⟩ := angle_plus_sweep sx sy ex ey cx cy cw
  constructor
  · rw [hc2, hcos]; ring
  · rw [hs2, hsin]; ring

/-- The rasterizer point at parametric fraction 1 is exactly the end point
whenever the end point lies at the same in-plane distance from the center as
the start point. -/
theorem arc_point_one (start endp center : Vec3) (cw : Bool) (plane : Plane)
    (hr : plane_dist endp center plane = plane_dist start center plane)
    (hpos : 0 < plane_dist start center plane) :
    arc_point start endp (plane_coords center plane).1 (plane_coords center plane).2
      (plane_dist start center plane)
      (atan2 ((plane_coords start plane).2 - (plane_coords center plane).2)
             ((plane_coords start plane).1 - (plane_coords center plane).1))
      (arc_sweep start endp center cw plane) plane 1 = endp := by
  have hrr : plane_dist start center plane
      = Real.sqrt (((plane_coords endp plane).1 - (plane_coords center plane).1) ^ 2
        + ((plane_coords endp plane).2 - (plane_coords center plane).2) ^ 2) := by
    rw [← hr]
    rfl
  have hland := arc_land (plane_coords start plane).1 (plane_coords start plane).2
    (plane_coords endp plane).1 (plane_coords endp plane).2
    (plane_coords center plane).1 (plane_coords center plane).2
    (plane_dist start center plane) cw hrr hpos
  have harc : arc_sweep start endp center cw plane
      = sweep_for_center (plane_coords start plane).1 (plane_coords start plane).2
        (plane_coords endp plane).1 (plane_coords endp plane).2
        (plane_coords center plane).1 (plane_coords center plane).2 cw := rfl
  rw [harc] at *
  cases plane with
  | XY =>
    simp only [plane_coords] at hland ⊢
    unfold arc_point
    simp only [plane_coords, mul_one]
    ext
    · exact hland.1
    · exact hland.2
    · show start.z + (endp.z - start.z) = endp.z
      ring
  | XZ =>
    simp only [plane_coords] at hland ⊢
    unfold arc_point
    simp only [plane_coords, mul_one]
    ext
    · exact hland.1
    · show start.y + (endp.y - start.y) = endp.y
      ring
    · exact hland.2
  | YZ =>
    simp only [plane_coords] at hland ⊢
    unfold arc_point
    simp only [plane_coords, mul_one]
    ext
    · show start.x + (endp.x - start.x) = endp.x
      ring
    · exact hland.1
    · exact hland.2

theorem arc_steps_pos (start endp center : Vec3) (cw : Bool) (plane : Plane) :
    0 < arc_steps start endp center cw plane :=
  Nat.lt_of_lt_of_le Nat.zero_lt_one (Nat.le_max_right _ 1)

/-- The segment list emitted for a non-degenerate arc, in closed form. -/
theorem arc_to_segments_big (start endp center : Vec3) (cw : Bool) (plane : Plane)
    (hbig : ¬ plane_dist start center plane < 1e-6) :
    arc_to_segments start endp center cw plane
      = (List.range (arc_steps start endp center cw plane)).map (fun (idx : ℕ) =>
          { start := if idx = 0 then start
                     else arc_point start endp (plane_coords center plane).1
                       (plane_coords center plane).2 (plane_dist start center plane)
                       (atan2 ((plane_coords start plane).2 - (plane_coords center plane).2)
                              ((plane_coords start plane).1 - (plane_coords center plane).1))
                       (arc_sweep start endp center cw plane) plane
                       ((idx : ℝ) / (arc_steps start endp center cw plane : ℝ)),
            stop := arc_point start endp (plane_coords center plane).1
                      (plane_coords center plane).2 (plane_dist start center plane)
                      (atan2 ((plane_coords start plane).2 - (plane_coords center plane).2)
                             ((plane_coords start plane).1 - (plane_coords center plane).1))
                      (arc_sweep start endp center cw plane) plane
                      (((idx : ℝ) + 1) / (arc_steps start endp center cw plane : ℝ)),
            kind := .Feed }) := by
  simp only [arc_to_segments]
  rw [abs_of_nonneg (plane_dist_nonneg _ _ _), if_neg hbig]

theorem range_succ_getLast (m : ℕ) : (List.range (m + 1)).getLast? = some m := by
  rw [List.range_succ]
  exact List.getLast?_concat _

/-- The end point of the last emitted segment of a non-degenerate arc is the
rasterizer point at parametric fraction exactly 1. -/
theorem arc_to_segments_last (start endp center : Vec3) (cw : Bool) (plane : Plane)
    (hbig : ¬ plane_dist start center plane < 1e-6) :
    (arc_to_segments start endp center cw plane).getLast?.map (fun s => s.stop)
      = some (arc_point start endp (plane_coords center plane).1
          (plane_coords center plane).2 (plane_dist start center plane)
          (atan2 ((plane_coords start plane).2 - (plane_coords center plane).2)
                 ((plane_coords start plane).1 - (plane_coords center plane).1))
          (arc_sweep start endp center cw plane) plane 1) := by
  rw [arc_to_segments_big start endp center cw plane hbig]
  obtain ⟨m, hm⟩ : ∃ m, arc_steps start endp center cw plane = m + 1 :=
    ⟨arc_steps start endp center cw plane - 1,
      (Nat.succ_pred_eq_of_pos (arc_steps_pos start endp center cw plane)).symm⟩
  rw [hm, List.getLast?_map, range_succ_getLast]
  simp only [Option.map_some']
  congr 1
  rw [show ((m : ℝ) + 1) / ((m + 1 : ℕ) : ℝ) = 1 by
    push_cast
    rw [div_self]
    positivity]



/-! ## C2: arc rasterization endpoint exactness (corrected) -/

/-- C2 (amended): for every rasterized arc that emits segments (in-plane
radius at least `1e-6`) and whose end point lies at the same in-plane
distance from the center as the start point, the end point of the last
emitted segment equals the arc target end point exactly in the exact-real
model, because the last step parametric fraction is driven to exactly 1.
(Without the equidistance condition the last point is the radial projection
of the end point onto the start-radius circle: see the counterexample.) -/
theorem arc_last_segment_exact (start endp center : Vec3) (cw : Bool) (plane : Plane)
    (hr : plane_dist endp center plane = plane_dist start center plane)
    (hbig : ¬ plane_dist start center plane < 1e-6) :
    (arc_to_segments start endp center cw plane).getLast?.map (fun s => s.stop)
      = some endp := by
  rw [arc_to_segments_last start endp center cw plane hbig]
  congr 1
  exact arc_point_one start endp center cw plane hr
    (lt_of_lt_of_le (by norm_num) (not_lt.mp hbig))

/-- Witness for C2: the clockwise half circle from the origin to `(10,0,0)`
around `(5,0,0)` ends exactly at `(10,0,0)`. -/
theorem arc_last_segment_exact_witness :
    (arc_to_segments ⟨0, 0, 0⟩ ⟨10, 0, 0⟩ ⟨5, 0, 0⟩ true .XY).getLast?.map
      (fun s => s.stop) = some (⟨10, 0, 0⟩ : Vec3) := by
  have h1 : plane_dist ⟨10, 0, 0⟩ (⟨5, 0, 0⟩ : Vec3) Plane.XY
      = plane_dist ⟨0, 0, 0⟩ (⟨5, 0, 0⟩ : Vec3) Plane.XY := by
    simp only [plane_dist, plane_coords]
    norm_num
  have h2 : ¬ plane_dist ⟨0, 0, 0⟩ (⟨5, 0, 0⟩ : Vec3) Plane.XY < 1e-6 := by
    simp only [plane_dist, plane_coords]
    rw [show ((0:ℝ) - 5) ^ 2 + ((0:ℝ) - 0) ^ 2 = 5 ^ 2 by norm_num,
      Real.sqrt_sq (by norm_num : (0:ℝ) ≤ 5)]
    norm_num
  exact arc_last_segment_exact ⟨0, 0, 0⟩ ⟨10, 0, 0⟩ ⟨5, 0, 0⟩ true .XY h1 h2

/-- In-plane distance of the demonstration arc (start at the origin, center
`(1,0,0)`): radius 1. -/
theorem demo_dist : plane_dist ⟨0, 0, 0⟩ (⟨1, 0, 0⟩ : Vec3) Plane.XY = 1 := by
  simp only [plane_dist, plane_coords]
  rw [show ((0:ℝ) - 1) ^ 2 + ((0:ℝ) - 0) ^ 2 = 1 by norm_num]
  exact Real.sqrt_one

theorem demo_big : ¬ plane_dist ⟨0, 0, 0⟩ (⟨1, 0, 0⟩ : Vec3) Plane.XY < 1e-6 := by
  rw [demo_dist]
  norm_num

theorem demo_sweep : arc_sweep ⟨0, 0, 0⟩ ⟨4, 0, 0⟩ ⟨1, 0, 0⟩ true .XY = -Real.pi := by
  have hsa : atan2 ((0:ℝ) - 0) ((0:ℝ) - 1) = Real.pi := by
    rw [show (0:ℝ) - 0 = 0 by norm_num, show (0:ℝ) - 1 = -1 by norm_num]
    unfold atan2
    rw [show (⟨-1, 0⟩ : ℂ) = ((-1 : ℝ) : ℂ) from by apply Complex.ext <;> simp]
    exact Complex.arg_ofReal_of_neg (by norm_num)
  have hea : atan2 ((0:ℝ) - 0) ((4:ℝ) - 1) = 0 := by
    rw [show (0:ℝ) - 0 = 0 by norm_num, show (4:ℝ) - 1 = 3 by norm_num]
    unfold atan2
    rw [show (⟨3, 0⟩ : ℂ) = ((3 : ℝ) : ℂ) from by apply Complex.ext <;> simp]
    exact Complex.arg_ofReal_of_nonneg (by norm_num)
  simp only [arc_sweep, plane_coords, sweep_for_center, if_true]
  rw [if_neg (by rw [hsa, hea]; have := Real.pi_pos; linarith), hsa, hea]
  ring

theorem demo_steps : arc_steps ⟨0, 0, 0⟩ ⟨4, 0, 0⟩ ⟨1, 0, 0⟩ true .XY = 7 := by
  simp only [arc_steps, demo_dist, demo_sweep, ARC_SEGMENT_LENGTH]
  rw [abs_neg, abs_of_pos Real.pi_pos]
  rw [show ⌈1 * Real.pi / 0.5⌉ = 7 from by
    rw [Int.ceil_eq_iff]
    constructor
    · have := Real.pi_gt_d6
      norm_num
      linarith
    · have := Real.pi_lt_d2
      norm_num
      linarith]
  rfl

theorem demo_len : (arc_to_segments ⟨0, 0, 0⟩ ⟨4, 0, 0⟩ ⟨1, 0, 0⟩ true .XY).length = 7 := by
  rw [arc_to_segments_big ⟨0, 0, 0⟩ ⟨4, 0, 0⟩ ⟨1, 0, 0⟩ true .XY demo_big]
  rw [List.length_map, List.length_range, demo_steps]

/-- The demonstration arc ends at `(2,0,0)`, not at the commanded `(4,0,0)`:
the rasterizer walks the circle of radius 1 around `(1,0,0)` and lands on
the radial projection of the end point. -/
theorem demo_last : (arc_to_segments ⟨0, 0, 0⟩ ⟨4, 0, 0⟩ ⟨1, 0, 0⟩ true .XY).getLast?.map
    (fun s => s.stop) = some (⟨2, 0, 0⟩ : Vec3) := by
  have hsa : atan2 ((0:ℝ) - 0) ((0:ℝ) - 1) = Real.pi := by
    rw [show (0:ℝ) - 0 = 0 by norm_num, show (0:ℝ) - 1 = -1 by norm_num]
    unfold atan2
    rw [show (⟨-1, 0⟩ : ℂ) = ((-1 : ℝ) : ℂ) from by apply Complex.ext <;> simp]
    exact Complex.arg_ofReal_of_neg (by norm_num)
  rw [arc_to_segments_last ⟨0, 0, 0⟩ ⟨4, 0, 0⟩ ⟨1, 0, 0⟩ true .XY demo_big]
  congr 1
  simp only [arc_point, plane_coords]
  rw [show ((⟨0,0,0⟩ : Vec3).y - (⟨1,0,0⟩ : Vec3).y) = (0:ℝ) - 0 from rfl,
    show ((⟨0,0,0⟩ : Vec3).x - (⟨1,0,0⟩ : Vec3).x) = (0:ℝ) - 1 from rfl,
    hsa, demo_sweep, demo_dist]
  rw [show Real.pi + -Real.pi * 1 = 0 by ring, Real.cos_zero, Real.sin_zero]
  ext <;> show _ = _
  · show (⟨1,0,0⟩ : Vec3).x + 1 * 1 = (2:ℝ)
    norm_num
  · show (⟨1,0,0⟩ : Vec3).y + 1 * 0 = (0:ℝ)
    norm_num
  · show (⟨0,0,0⟩ : Vec3).z + ((⟨4,0,0⟩ : Vec3).z - (⟨0,0,0⟩ : Vec3).z) * 1 = (0:ℝ)
    norm_num

/-- C2 counterexample: the clockwise arc from the origin commanded to end at
`(4,0,0)` with center `(1,0,0)` (an offset-form center not equidistant from
the end) rasterizes its last segment to stop at `(2,0,0)`, which misses the
target end point by 2, far beyond the `1e-9` tolerance. -/
theorem arc_endpoint_counterexample :
    (arc_to_segments ⟨0, 0, 0⟩ ⟨4, 0, 0⟩ ⟨1, 0, 0⟩ true .XY).getLast?.map
      (fun s => s.stop) = some (⟨2, 0, 0⟩ : Vec3) ∧
    ¬ |(2 : ℝ) - 4| ≤ 1e-9 :=
  ⟨demo_last, by norm_num⟩


/-! ## C4: connectivity of the segment list (corrected) -/

/-- The segment list is a connected chain starting from `origin`: each
segment starts where the previous one stopped. -/
def chained : List LineSegment → Vec3 → Prop
  | [], _ => True
  | s :: tl, prev => s.start = prev ∧ chained tl s.stop

/-- The point at which a segment run ends: the stop of its last segment, or
the given origin when the run is empty. -/
def ends_at (segs : List LineSegment) (origin : Vec3) : Vec3 :=
  match segs.getLast? with
  | some s => s.stop
  | none => origin

/-- The connectivity invariant of the parser: its segments chain from the
origin and the machine position sits at the end of the chain. -/
def chainInv (p : Parser) : Prop :=
  chained p.segments ⟨0, 0, 0⟩ ∧ p.state.pos = ends_at p.segments ⟨0, 0, 0⟩

theorem ends_at_cons (s : LineSegment) (tl : List LineSegment) (o : Vec3) :
    ends_at (s :: tl) o = ends_at tl s.stop := by
  cases tl with
  | nil => rfl
  | cons t ttl =>
    unfold ends_at
    rw [List.getLast?_cons_cons,
      List.getLast?_eq_getLast_of_ne_nil (List.cons_ne_nil t ttl)]

theorem chained_append (l1 l2 : List LineSegment) :
    ∀ o : Vec3, chained (l1 ++ l2) o ↔ chained l1 o ∧ chained l2 (ends_at l1 o) := by
  induction l1 with
  | nil =>
    intro o
    simp [chained, ends_at]
  | cons s tl ih =>
    intro o
    rw [List.cons_append]
    show (s.start = o ∧ chained (tl ++ l2) s.stop) ↔ _
    rw [ih s.stop, ends_at_cons]
    show _ ↔ ((s.start = o ∧ chained tl s.stop) ∧ _)
    tauto

theorem ends_at_append (l1 l2 : List LineSegment) (o : Vec3) :
    ends_at (l1 ++ l2) o = ends_at l2 (ends_at l1 o) := by
  cases hl : l2.getLast? with
  | none =>
    have : l2 = [] := by
      cases l2 with
      | nil => rfl
      | cons t ttl => rw [List.getLast?_eq_getLast_of_ne_nil (by simp)] at hl; cases hl
    subst this
    simp [ends_at]
  | some t =>
    unfold ends_at
    rw [hl, List.getLast?_append_of_ne_nil, hl]
    intro h
    subst h
    cases hl

theorem ends_at_of_getLast_stop (l : List LineSegment) (o v : Vec3)
    (h : l.getLast?.map (fun s => s.stop) = some v) : ends_at l o = v := by
  cases hl : l.getLast? with
  | none => rw [hl] at h; cases h
  | some s =>
    rw [hl] at h
    unfold ends_at
    rw [hl]
    exact Option.some.inj h

/-- A run of segments generated by a step function whose consecutive
endpoints agree is chained. -/
theorem chained_of_step (g : ℕ → LineSegment) (o : Vec3)
    (h0 : (g 0).start = o) (hstep : ∀ i, (g (i + 1)).start = (g i).stop) :
    ∀ n, chained ((List.range n).map g) o := by
  intro n
  induction n with
  | zero => exact trivial
  | succ m ih =>
    rw [List.range_succ, List.map_append]
    rw [chained_append]
    refine ⟨ih, ?_, trivial⟩
    cases m with
    | zero => exact h0
    | succ k =>
      have hlast : ((List.range (k + 1)).map g).getLast? = some (g k) := by
        rw [List.getLast?_map, range_succ_getLast]
        rfl
      have : ends_at ((List.range (k + 1)).map g) o = (g k).stop := by
        unfold ends_at
        rw [hlast]
      rw [this]
      exact hstep k

/-- The segments of a non-degenerate arc chain from the start point. -/
theorem arc_segments_chained (start endp center : Vec3) (cw : Bool) (plane : Plane) :
    chained (arc_to_segments start endp center cw plane) start := by
  by_cases hbig : plane_dist start center plane < 1e-6
  · simp only [arc_to_segments]
    rw [abs_of_nonneg (plane_dist_nonneg _ _ _), if_pos hbig]
    exact trivial
  · rw [arc_to_segments_big start endp center cw plane hbig]
    apply chained_of_step
    · simp
    · intro i
      simp only [if_neg (Nat.succ_ne_zero i)]
      congr 1
      push_cast
      ring


/-- A non-degenerate arc whose end is equidistant from the center lands its
chain exactly on the commanded end point. -/
theorem arc_ends_at (start endp center : Vec3) (cw : Bool) (plane : Plane) (o : Vec3)
    (hr : plane_dist endp center plane = plane_dist start center plane)
    (hbig : ¬ plane_dist start center plane < 1e-6) :
    ends_at (arc_to_segments start endp center cw plane) o = endp := by
  apply ends_at_of_getLast_stop
  rw [arc_to_segments_last start endp center cw plane hbig]
  congr 1
  exact arc_point_one start endp center cw plane hr
    (lt_of_lt_of_le (by norm_num) (not_lt.mp hbig))

/-- C4 (amended): connectivity as an invariant of the move operations.  The
fresh parser satisfies it (so the first segment starts at the origin); every
linear move preserves it; and an arc move preserves it provided the
commanded end point is in-plane equidistant from the solved center as the
start point.  An arc move with a center not equidistant from the end breaks
connectivity: see the counterexample. -/
theorem connectivity_invariant (opts : ParseOptions) :
    chainInv (Parser.new opts) ∧
    (∀ (p : Parser) (x y z : Option ℝ) (kind : MoveKind),
      chainInv p → chainInv (add_linear_move p x y z kind)) ∧
    (∀ (p p' : Parser) (x y z i j k r : Option ℝ) (cw : Bool),
      chainInv p →
      add_arc_move p x y z i j k r cw = .ok p' →
      (∀ c, arc_center p.state.pos (move_target p.state x y z) i j k r
          p.state.plane cw = .ok c →
        plane_dist (move_target p.state x y z) c p.state.plane
          = plane_dist p.state.pos c p.state.plane) →
      chainInv p') := by
  refine ⟨⟨trivial, rfl⟩, ?_, ?_⟩
  · intro p x y z kind hp
    by_cases hmv : move_target p.state x y z = p.state.pos
    · rw [add_linear_move_noop p x y z kind hmv]
      exact hp
    · rw [add_linear_move_spec p x y z kind hmv]
      constructor
      · show chained (p.segments ++ [⟨p.state.pos, move_target p.state x y z, kind⟩])
          ⟨0, 0, 0⟩
        rw [chained_append]
        exact ⟨hp.1, hp.2, trivial⟩
      · show move_target p.state x y z
          = ends_at (p.segments ++ [⟨p.state.pos, move_target p.state x y z, kind⟩])
              ⟨0, 0, 0⟩
        rw [ends_at_append]
        rfl
  · intro p p' x y z i j k r cw hp harc hcons
    unfold add_arc_move at harc
    by_cases hmv : move_target p.state x y z = p.state.pos
    · rw [if_pos hmv] at harc
      have := Except.ok.inj harc
      subst this
      exact hp
    · rw [if_neg hmv] at harc
      cases hc : arc_center p.state.pos (move_target p.state x y z) i j k r
          p.state.plane cw with
      | error e => rw [hc] at harc; exact Except.noConfusion harc
      | ok center =>
        rw [hc] at harc
        simp only at harc
        by_cases hsegs : arc_to_segments p.state.pos (move_target p.state x y z)
            center cw p.state.plane = []
        · rw [if_pos hsegs] at harc
          have := Except.ok.inj harc
          subst this
          exact hp
        · rw [if_neg hsegs] at harc
          have := Except.ok.inj harc
          subst this
          have hr := hcons center hc
          have hbig : ¬ plane_dist p.state.pos center p.state.plane < 1e-6 := by
            intro hlt
            apply hsegs
            simp only [arc_to_segments]
            rw [abs_of_nonneg (plane_dist_nonneg _ _ _), if_pos hlt]
          constructor
          · show chained (p.segments ++ arc_to_segments p.state.pos
              (move_target p.state x y z) center cw p.state.plane) ⟨0, 0, 0⟩
            rw [chained_append]
            refine ⟨hp.1, ?_⟩
            rw [← hp.2]
            exact arc_segments_chained p.state.pos (move_target p.state x y z)
              center cw p.state.plane
          · show move_target p.state x y z = ends_at (p.segments ++ arc_to_segments
              p.state.pos (move_target p.state x y z) center cw p.state.plane) ⟨0, 0, 0⟩
            rw [ends_at_append]
            exact (arc_ends_at p.state.pos (move_target p.state x y z) center cw
              p.state.plane _ hr hbig).symm

/-- Witness for C4: a feed move from the fresh parser keeps the chain
connected from the origin. -/
theorem connectivity_invariant_witness :
    chainInv (add_linear_move (Parser.new ParseOptions.default)
      (some 1) none none .Feed) :=
  (connectivity_invariant ParseOptions.default).2.1 _ (some 1) none none .Feed
    (connectivity_invariant ParseOptions.default).1



/-! ### A concrete two-line program breaking connectivity -/

theorem rust_round_two : rust_round 2 = 2 := by
  unfold rust_round
  rw [if_pos (by norm_num : (0:ℝ) ≤ 2), show (2:ℝ) + 1 / 2 = 5 / 2 by norm_num,
    Int.floor_eq_iff]
  norm_num

theorem rust_round_one : rust_round 1 = 1 := by
  unfold rust_round
  rw [if_pos (by norm_num : (0:ℝ) ≤ 1), show (1:ℝ) + 1 / 2 = 3 / 2 by norm_num,
    Int.floor_eq_iff]
  norm_num

theorem demo_center : arc_center ⟨0,0,0⟩ ⟨4,0,0⟩ (some 1) (some 0) none none .XY true
    = .ok ⟨1,0,0⟩ := by
  unfold arc_center
  rw [if_pos (by simp)]
  unfold arc_center_from_offsets
  have hce : offsets_center ⟨0,0,0⟩ (some 1) (some 0) none .XY = (⟨1,0,0⟩ : Vec3) := by
    simp only [offsets_center, Option.getD]
    ext <;> norm_num
  rw [hce]
  rw [if_neg (by intro h; have := congrArg Vec3.x h; norm_num at this)]

theorem demo_ne_nil : arc_to_segments ⟨0,0,0⟩ ⟨4,0,0⟩ ⟨1,0,0⟩ true .XY ≠ [] := by
  intro h
  have := demo_len
  rw [h] at this
  simp at this

/-- Parsing `G2 X4 Y0 I1 J0` from the fresh parser: an offset-form arc to
`(4,0,0)` around `(1,0,0)`. -/
theorem demo_parse_line1 :
    parse_line (Parser.new ParseOptions.default)
      ['G','2',' ','X','4',' ','Y','0',' ','I','1',' ','J','0']
    = Except.ok (Parser.mk ⟨⟨4,0,0⟩, 1, .Absolute, .XY, .ArcCW⟩
        (arc_to_segments ⟨0,0,0⟩ ⟨4,0,0⟩ ⟨1,0,0⟩ true .XY)
        (include_segs Bounds3.new (arc_to_segments ⟨0,0,0⟩ ⟨4,0,0⟩ ⟨1,0,0⟩ true .XY))
        ⟨1, 0, 0, 1, 1⟩ ParseOptions.default [7]) := by
  have hw1 : parse_words ['G','2',' ','X','4',' ','Y','0',' ','I','1',' ','J','0']
      ParseOptions.default
      = .ok [⟨'G',2⟩,⟨'X',4⟩,⟨'Y',0⟩,⟨'I',1⟩,⟨'J',0⟩] := by
    simp +decide [parse_words, parse_words_aux, is_ascii_ws, takeNum, trim, parse_f64,
      parse_f64.parse_exp, digitsVal, ParseOptions.default,
      ParseOptions.should_ignore_missing, Except.map]
  have htrim : trim (strip_comments
      ['G','2',' ','X','4',' ','Y','0',' ','I','1',' ','J','0'])
      = ['G','2',' ','X','4',' ','Y','0',' ','I','1',' ','J','0'] := by decide
  norm_num +decide [parse_line, htrim, hw1, Parser.new, ParserState.new,
    ToolpathStats.default, List.foldl_cons, List.foldl_nil,
    process_word, LineAcc.init, rust_round_two, add_arc_move, move_target, apply_axis,
    Vec3.mk.injEq, demo_center, demo_ne_nil, include_segs, demo_len]

/-- Parsing `G1 X5` from the state after the demonstration arc: one linear
feed segment starting at the commanded arc end `(4,0,0)`. -/
theorem demo_parse_line2 :
    parse_line (Parser.mk ⟨⟨4,0,0⟩, 1, .Absolute, .XY, .ArcCW⟩
        (arc_to_segments ⟨0,0,0⟩ ⟨4,0,0⟩ ⟨1,0,0⟩ true .XY)
        (include_segs Bounds3.new (arc_to_segments ⟨0,0,0⟩ ⟨4,0,0⟩ ⟨1,0,0⟩ true .XY))
        ⟨1, 0, 0, 1, 1⟩ ParseOptions.default [7])
      ['G','1',' ','X','5']
    = Except.ok (Parser.mk ⟨⟨5,0,0⟩, 1, .Absolute, .XY, .Feed⟩
        (arc_to_segments ⟨0,0,0⟩ ⟨4,0,0⟩ ⟨1,0,0⟩ true .XY
          ++ [⟨⟨4,0,0⟩, ⟨5,0,0⟩, .Feed⟩])
        (((include_segs Bounds3.new
            (arc_to_segments ⟨0,0,0⟩ ⟨4,0,0⟩ ⟨1,0,0⟩ true .XY)).include
              ⟨4,0,0⟩).include ⟨5,0,0⟩)
        ⟨2, 0, 0, 2, 1⟩ ParseOptions.default [7, 8]) := by
  have hw2 : parse_words ['G','1',' ','X','5'] ParseOptions.default
      = .ok [⟨'G',1⟩,⟨'X',5⟩] := by
    simp +decide [parse_words, parse_words_aux, is_ascii_ws, takeNum, trim, parse_f64,
      parse_f64.parse_exp, digitsVal, ParseOptions.default,
      ParseOptions.should_ignore_missing, Except.map]
  have htrim : trim (strip_comments ['G','1',' ','X','5'])
      = ['G','1',' ','X','5'] := by decide
  norm_num +decide [parse_line, htrim, hw2, List.foldl_cons, List.foldl_nil,
    process_word, LineAcc.init, rust_round_one, add_linear_move, move_target, apply_axis,
    Vec3.mk.injEq, demo_len]

/-- C4 counterexample: the program `G2 X4 Y0 I1 J0` / `G1 X5` parses
successfully, but its segment list is NOT connected: the arc rasterization
ends at `(2,0,0)` while the next segment starts at the commanded arc end
`(4,0,0)`. -/
theorem connectivity_counterexample :
    ∃ tp : Toolpath,
      parse_lines [['G','2',' ','X','4',' ','Y','0',' ','I','1',' ','J','0'],
                   ['G','1',' ','X','5']] ParseOptions.default = .ok tp ∧
      ¬ chained tp.segments ⟨0, 0, 0⟩ := by
  refine ⟨Parser.finish (Parser.mk
      ⟨⟨5,0,0⟩, 1, .Absolute, .XY, .Feed⟩
      (arc_to_segments ⟨0,0,0⟩ ⟨4,0,0⟩ ⟨1,0,0⟩ true .XY
        ++ [⟨⟨4,0,0⟩, ⟨5,0,0⟩, .Feed⟩])
      (((include_segs Bounds3.new
          (arc_to_segments ⟨0,0,0⟩ ⟨4,0,0⟩ ⟨1,0,0⟩ true .XY)).include
            ⟨4,0,0⟩).include ⟨5,0,0⟩)
      ⟨2, 0, 0, 2, 1⟩ ParseOptions.default [7, 8]), ?_, ?_⟩
  · unfold parse_lines run_lines
    rw [demo_parse_line1]
    simp only
    unfold run_lines
    rw [demo_parse_line2]
    simp only
    unfold run_lines
    rfl
  · intro hch
    have hch2 : chained (arc_to_segments ⟨0,0,0⟩ ⟨4,0,0⟩ ⟨1,0,0⟩ true .XY
        ++ [⟨⟨4,0,0⟩, ⟨5,0,0⟩, .Feed⟩]) ⟨0, 0, 0⟩ := hch
    rw [chained_append] at hch2
    have hend : ends_at (arc_to_segments ⟨0,0,0⟩ ⟨4,0,0⟩ ⟨1,0,0⟩ true .XY) ⟨0, 0, 0⟩
        = ⟨2, 0, 0⟩ := ends_at_of_getLast_stop _ _ _ demo_last
    have hjunction := hch2.2.1
    rw [hend] at hjunction
    have := congrArg Vec3.x hjunction
    norm_num at this



/-! ## C1: radius-form center selection by radius sign -/

theorem select_center_true_iff (s1 s2 : ℝ) :
    select_center s1 s2 true = true ↔
      ((Real.pi < |s1| ∧ |s2| ≤ Real.pi) ∨
       ((Real.pi < |s1| ↔ Real.pi < |s2|) ∧ |s2| ≤ |s1|)) := by
  simp only [select_center]
  rw [if_pos trivial]
  by_cases h1 : Real.pi < |s1| ∧ |s2| ≤ Real.pi
  · rw [if_pos h1]
    constructor
    · intro _
      exact Or.inl h1
    · intro _
      rfl
  · rw [if_neg h1]
    by_cases h2 : Real.pi < |s2| ∧ |s1| ≤ Real.pi
    · rw [if_pos h2]
      constructor
      · intro h
        cases h
      · rintro (h | ⟨hsame, -⟩)
        · exact absurd h h1
        · exact absurd (hsame.mpr h2.1) (not_lt.mpr h2.2)
    · rw [if_neg h2, decide_eq_true_eq]
      have hsame : Real.pi < |s1| ↔ Real.pi < |s2| := by
        constructor
        · intro ha
          by_contra hb
          exact h1 ⟨ha, not_lt.mp hb⟩
        · intro hb
          by_contra ha
          exact h2 ⟨hb, not_lt.mp ha⟩
      constructor
      · intro hle
        exact Or.inr ⟨hsame, hle⟩
      · rintro (h | ⟨-, hle⟩)
        · exact absurd h h1
        · exact hle

theorem select_center_false_iff (s1 s2 : ℝ) :
    select_center s1 s2 false = true ↔
      ((|s1| ≤ Real.pi ∧ Real.pi < |s2|) ∨
       ((Real.pi < |s1| ↔ Real.pi < |s2|) ∧ |s1| ≤ |s2|)) := by
  simp only [select_center]
  rw [if_neg (by simp : ¬ (false = true))]
  by_cases h1 : |s1| ≤ Real.pi ∧ Real.pi < |s2|
  · rw [if_pos h1]
    constructor
    · intro _
      exact Or.inl h1
    · intro _
      rfl
  · rw [if_neg h1]
    by_cases h2 : |s2| ≤ Real.pi ∧ Real.pi < |s1|
    · rw [if_pos h2]
      constructor
      · intro h
        cases h
      · rintro (h | ⟨hsame, -⟩)
        · exact absurd h h1
        · exact absurd (hsame.mp h2.2) (not_lt.mpr h2.1)
    · rw [if_neg h2, decide_eq_true_eq]
      have hsame : Real.pi < |s1| ↔ Real.pi < |s2| := by
        constructor
        · intro ha
          by_contra hb
          exact h2 ⟨not_lt.mp hb, ha⟩
        · intro hb
          by_contra ha
          exact h1 ⟨not_lt.mp ha, hb⟩
      constructor
      · intro hle
        exact Or.inr ⟨hsame, hle⟩
      · rintro (h | ⟨-, hle⟩)
        · exact absurd h.2 (by
            intro hlt
            exact h1 ⟨h.1, hlt⟩)
        · exact hle



/-- Both checks passing, `arc_center_from_radius` returns the candidate
selected by `select_center` on the two direction-corrected sweeps with the
large-arc flag `radius < 0`, written into the active plane. -/
theorem arc_center_from_radius_selects (start endp : Vec3) (radius : ℝ)
    (plane : Plane) (cw : Bool)
    (h1 : ¬ chord_len start endp plane < 1e-9)
    (h2 : ¬ chord_len start endp plane > 2 * |radius| + 1e-9) :
    arc_center_from_radius start endp radius plane cw
      = .ok (write_plane start plane
          (if select_center
                (sweep_for_center (plane_coords start plane).1 (plane_coords start plane).2
                  (plane_coords endp plane).1 (plane_coords endp plane).2
                  ((arc_candidates start endp radius plane).1).1
                  ((arc_candidates start endp radius plane).1).2 cw)
                (sweep_for_center (plane_coords start plane).1 (plane_coords start plane).2
                  (plane_coords endp plane).1 (plane_coords endp plane).2
                  ((arc_candidates start endp radius plane).2).1
                  ((arc_candidates start endp radius plane).2).2 cw)
                (decide (radius < 0)) = true
              then (arc_candidates start endp radius plane).1
              else (arc_candidates start endp radius plane).2).1
          (if select_center
                (sweep_for_center (plane_coords start plane).1 (plane_coords start plane).2
                  (plane_coords endp plane).1 (plane_coords endp plane).2
                  ((arc_candidates start endp radius plane).1).1
                  ((arc_candidates start endp radius plane).1).2 cw)
                (sweep_for_center (plane_coords start plane).1 (plane_coords start plane).2
                  (plane_coords endp plane).1 (plane_coords endp plane).2
                  ((arc_candidates start endp radius plane).2).1
                  ((arc_candidates start endp radius plane).2).2 cw)
                (decide (radius < 0)) = true
              then (arc_candidates start endp radius plane).1
              else (arc_candidates start endp radius plane).2).2) := by
  simp only [arc_center_from_radius]
  rw [abs_of_nonneg (chord_len_nonneg _ _ _), if_neg h1, if_neg h2]

theorem semicircle_chord : chord_len ⟨0,0,0⟩ ⟨10,0,0⟩ .XY = 10 := by
  simp only [chord_len, plane_coords]
  rw [show (((⟨10,0,0⟩ : Vec3).x - (⟨0,0,0⟩ : Vec3).x) * ((⟨10,0,0⟩ : Vec3).x - (⟨0,0,0⟩ : Vec3).x)
      + ((⟨10,0,0⟩ : Vec3).y - (⟨0,0,0⟩ : Vec3).y) * ((⟨10,0,0⟩ : Vec3).y - (⟨0,0,0⟩ : Vec3).y) : ℝ)
      = 10 ^ 2 from by norm_num]
  exact Real.sqrt_sq (by norm_num)

theorem semicircle_candidates :
    arc_candidates ⟨0,0,0⟩ ⟨10,0,0⟩ 5 .XY = ((5, 0), (5, 0)) := by
  simp only [arc_candidates, plane_coords, semicircle_chord]
  rw [if_pos (by norm_num : (|(5:ℝ)| * |(5:ℝ)| - ((10:ℝ) * 0.5) ^ 2 : ℝ) ≤ 0)]
  norm_num [Prod.ext_iff]

theorem semicircle_sweep : sweep_for_center 0 0 10 0 5 0 true = -Real.pi := by
  have hsa : atan2 ((0:ℝ) - 0) ((0:ℝ) - 5) = Real.pi := by
    rw [show (0:ℝ) - 0 = 0 by norm_num, show (0:ℝ) - 5 = -5 by norm_num]
    unfold atan2
    rw [show (⟨-5, 0⟩ : ℂ) = ((-5 : ℝ) : ℂ) from by apply Complex.ext <;> simp]
    exact Complex.arg_ofReal_of_neg (by norm_num)
  have hea : atan2 ((0:ℝ) - 0) ((10:ℝ) - 5) = 0 := by
    rw [show (0:ℝ) - 0 = 0 by norm_num, show (10:ℝ) - 5 = 5 by norm_num]
    unfold atan2
    rw [show (⟨5, 0⟩ : ℂ) = ((5 : ℝ) : ℂ) from by apply Complex.ext <;> simp]
    exact Complex.arg_ofReal_of_nonneg (by norm_num)
  simp only [sweep_for_center, if_true]
  rw [if_neg (by rw [hsa, hea]; have := Real.pi_pos; linarith), hsa, hea]
  ring

theorem semicircle_center :
    arc_center_from_radius ⟨0,0,0⟩ ⟨10,0,0⟩ 5 .XY true = .ok ⟨5,0,0⟩ := by
  simp only [arc_center_from_radius]
  rw [abs_of_nonneg (chord_len_nonneg _ _ _), semicircle_chord]
  rw [if_neg (by norm_num), if_neg (by norm_num)]
  rw [semicircle_candidates, ite_self]
  rfl

/-- C1: the radius-form solver computes both candidate centers and selects
by radius sign.  First conjunct: the selection rule — with the large-arc
flag (negative radius) the first candidate is picked exactly when its sweep
magnitude alone exceeds pi, or both candidates are in the same size class
and its magnitude is at least the other one (small-arc flag dually, with
at-most-pi and smaller magnitude); second conjunct: the solver returns
exactly the selected candidate; third conjunct: for start `(0,0,0)`, end
`(10,0,0)`, plane XY, clockwise, `R = 5`, the solver returns the
semicircular center `(5,0,0)`, whose direction-corrected sweep has
magnitude exactly pi. -/
theorem radius_center_selection :
    (∀ s1 s2 : ℝ,
      (select_center s1 s2 true = true ↔
        ((Real.pi < |s1| ∧ |s2| ≤ Real.pi) ∨
         ((Real.pi < |s1| ↔ Real.pi < |s2|) ∧ |s2| ≤ |s1|))) ∧
      (select_center s1 s2 false = true ↔
        ((|s1| ≤ Real.pi ∧ Real.pi < |s2|) ∨
         ((Real.pi < |s1| ↔ Real.pi < |s2|) ∧ |s1| ≤ |s2|)))) ∧
    (∀ (start endp : Vec3) (radius : ℝ) (plane : Plane) (cw : Bool),
      ¬ chord_len start endp plane < 1e-9 →
      ¬ chord_len start endp plane > 2 * |radius| + 1e-9 →
      arc_center_from_radius start endp radius plane cw
        = .ok (write_plane start plane
            (if select_center
                (sweep_for_center (plane_coords start plane).1 (plane_coords start plane).2
                  (plane_coords endp plane).1 (plane_coords endp plane).2
                  ((arc_candidates start endp radius plane).1).1
                  ((arc_candidates start endp radius plane).1).2 cw)
                (sweep_for_center (plane_coords start plane).1 (plane_coords start plane).2
                  (plane_coords endp plane).1 (plane_coords endp plane).2
                  ((arc_candidates start endp radius plane).2).1
                  ((arc_candidates start endp radius plane).2).2 cw)
                (decide (radius < 0)) = true
              then (arc_candidates start endp radius plane).1
              else (arc_candidates start endp radius plane).2).1
            (if select_center
                (sweep_for_center (plane_coords start plane).1 (plane_coords start plane).2
                  (plane_coords endp plane).1 (plane_coords endp plane).2
                  ((arc_candidates start endp radius plane).1).1
                  ((arc_candidates start endp radius plane).1).2 cw)
                (sweep_for_center (plane_coords start plane).1 (plane_coords start plane).2
                  (plane_coords endp plane).1 (plane_coords endp plane).2
                  ((arc_candidates start endp radius plane).2).1
                  ((arc_candidates start endp radius plane).2).2 cw)
                (decide (radius < 0)) = true
              then (arc_candidates start endp radius plane).1
              else (arc_candidates start endp radius plane).2).2)) ∧
    (arc_center_from_radius ⟨0,0,0⟩ ⟨10,0,0⟩ 5 .XY true = .ok ⟨5,0,0⟩ ∧
      |sweep_for_center 0 0 10 0 5 0 true| = Real.pi) := by
  refine ⟨?_, ?_, semicircle_center, ?_⟩
  · intro s1 s2
    exact ⟨select_center_true_iff s1 s2, select_center_false_iff s1 s2⟩
  · intro start endp radius plane cw h1 h2
    exact arc_center_from_radius_selects start endp radius plane cw h1 h2
  · rw [semicircle_sweep, abs_neg, abs_of_pos Real.pi_pos]

/-- Witness for C1: the solver equation of the second conjunct, applied at
the concrete semicircle request. -/
theorem radius_center_selection_witness :
    arc_center_from_radius ⟨0,0,0⟩ ⟨10,0,0⟩ 5 .XY true
      = .ok (write_plane ⟨0,0,0⟩ .XY
          (if select_center
              (sweep_for_center (plane_coords ⟨0,0,0⟩ .XY).1 (plane_coords ⟨0,0,0⟩ .XY).2
                (plane_coords ⟨10,0,0⟩ .XY).1 (plane_coords ⟨10,0,0⟩ .XY).2
                ((arc_candidates ⟨0,0,0⟩ ⟨10,0,0⟩ 5 .XY).1).1
                ((arc_candidates ⟨0,0,0⟩ ⟨10,0,0⟩ 5 .XY).1).2 true)
              (sweep_for_center (plane_coords ⟨0,0,0⟩ .XY).1 (plane_coords ⟨0,0,0⟩ .XY).2
                (plane_coords ⟨10,0,0⟩ .XY).1 (plane_coords ⟨10,0,0⟩ .XY).2
                ((arc_candidates ⟨0,0,0⟩ ⟨10,0,0⟩ 5 .XY).2).1
                ((arc_candidates ⟨0,0,0⟩ ⟨10,0,0⟩ 5 .XY).2).2 true)
              (decide ((5:ℝ) < 0)) = true
            then (arc_candidates ⟨0,0,0⟩ ⟨10,0,0⟩ 5 .XY).1
            else (arc_candidates ⟨0,0,0⟩ ⟨10,0,0⟩ 5 .XY).2).1
          (if select_center
              (sweep_for_center (plane_coords ⟨0,0,0⟩ .XY).1 (plane_coords ⟨0,0,0⟩ .XY).2
                (plane_coords ⟨10,0,0⟩ .XY).1 (plane_coords ⟨10,0,0⟩ .XY).2
                ((arc_candidates ⟨0,0,0⟩ ⟨10,0,0⟩ 5 .XY).1).1
                ((arc_candidates ⟨0,0,0⟩ ⟨10,0,0⟩ 5 .XY).1).2 true)
              (sweep_for_center (plane_coords ⟨0,0,0⟩ .XY).1 (plane_coords ⟨0,0,0⟩ .XY).2
                (plane_coords ⟨10,0,0⟩ .XY).1 (plane_coords ⟨10,0,0⟩ .XY).2
                ((arc_candidates ⟨0,0,0⟩ ⟨10,0,0⟩ 5 .XY).2).1
                ((arc_candidates ⟨0,0,0⟩ ⟨10,0,0⟩ 5 .XY).2).2 true)
              (decide ((5:ℝ) < 0)) = true
            then (arc_candidates ⟨0,0,0⟩ ⟨10,0,0⟩ 5 .XY).1
            else (arc_candidates ⟨0,0,0⟩ ⟨10,0,0⟩ 5 .XY).2).2) :=
  radius_center_selection.2.1 ⟨0,0,0⟩ ⟨10,0,0⟩ 5 .XY true
    (by rw [semicircle_chord]; norm_num)
    (by rw [semicircle_chord]; norm_num)


end NcView
